import Mathlib

/-!
Verification of the bluefin-releases fetch-and-enrichment pipeline.

This file shallowly embeds the Go pipeline of castrojo/bluefin-releases:
the Flathub adapter (`internal/flathub/flathub.go`), the shared data model
(`internal/models`), the Mozilla enrichment (`internal/mozilla`), the Bluefin
Brewfile / Homebrew / tap adapters (`internal/bluefin`), and the Bluefin OS
release fetchers.  Network calls are modelled by injecting the upstream
response as an explicit value; goroutine fan-in order is modelled by an
explicit completion-order parameter; Go map iteration order is modelled by an
explicit order parameter; `time.Now`, `time.Parse` and `time.Format` are
injected as oracles.  All regular-expression uses of the Go code are embedded
as concrete scanners implementing the exact patterns that appear in the
source.  Timestamps (`time.Time`) are modelled as integers, with Go's
`After` being `· > ·`.
-/

/-! ## String scanning utilities (embedding the Go regexp uses) -/

/-- Go's `\s` character class for the `regexp` package: `[\t\n\f\r ]`. -/
def isGoSpace (c : Char) : Bool :=
  c = ' ' || c = Char.ofNat 9 || c = Char.ofNat 10 || c = Char.ofNat 12 || c = Char.ofNat 13

/-- Match a literal list of characters at the head, returning the remainder. -/
def dropLit : List Char → List Char → Option (List Char)
  | [], s => some s
  | _, [] => none
  | l :: ls, c :: cs => if c = l then dropLit ls cs else none

/-- Maximal run of characters satisfying `p` (greedy `X*` / `X+` matching). -/
def takeRun (p : Char → Bool) : List Char → (List Char × List Char)
  | [] => ([], [])
  | c :: cs =>
    if p c then
      let r := takeRun p cs
      (c :: r.1, r.2)
    else ([], c :: cs)

/-- Leftmost match: try the matcher at every suffix, earliest start first
(the semantics of `regexp.FindStringSubmatch`). -/
def firstMatch {α : Type} (m : List Char → Option α) : List Char → Option α
  | [] => m []
  | c :: cs =>
    match m (c :: cs) with
    | some a => some a
    | none => firstMatch m cs

/-- Fuel-driven repeated leftmost matching, continuing after each match end
(the semantics of `regexp.FindAllSubmatch(_, -1)`; every pattern we embed
consumes at least one character, so fuel `length + 1` is exact). -/
def allMatchesAux {α : Type} (m : List Char → Option (α × List Char)) :
    Nat → List Char → List α
  | 0, _ => []
  | fuel + 1, s =>
    match m s with
    | some (a, rest) => a :: allMatchesAux m fuel rest
    | none =>
      match s with
      | [] => []
      | _ :: cs => allMatchesAux m fuel cs

/-- All non-overlapping leftmost matches of `m` in `s`. -/
def allMatches {α : Type} (m : List Char → Option (α × List Char)) (s : List Char) : List α :=
  allMatchesAux m (s.length + 1) s

/-- `strings.Contains`: some suffix of `s` starts with `pat`. -/
def goContains (s pat : String) : Bool :=
  (firstMatch (fun l => dropLit pat.toList l) s.toList).isSome

/-- `strings.HasPrefix`. -/
def strStartsWith (s pre : String) : Bool :=
  (dropLit pre.toList s.toList).isSome

/-- `strings.HasSuffix`. -/
def strEndsWith (s suf : String) : Bool :=
  (dropLit suf.toList.reverse s.toList.reverse).isSome

/-- `strings.TrimPrefix`. -/
def goTrimPre (s pre : String) : String :=
  if strStartsWith s pre then String.mk (s.toList.drop pre.toList.length) else s

/-- `strings.TrimSuffix`. -/
def goTrimSuf (s suf : String) : String :=
  if strEndsWith s suf then String.mk (s.toList.take (s.toList.length - suf.toList.length))
  else s

/-- Fuelled worker for `goReplaceAll` (the code only replaces the nonempty
patterns `/` and the arrow, for which this is exactly `strings.ReplaceAll`:
leftmost non-overlapping matches). -/
def replaceAllAux (pat rep : List Char) : Nat → List Char → List Char
  | 0, s => s
  | fuel + 1, s =>
    match dropLit pat s with
    | some rest => rep ++ replaceAllAux pat rep fuel rest
    | none =>
      match s with
      | [] => []
      | c :: cs => c :: replaceAllAux pat rep fuel cs

/-- `strings.ReplaceAll` (for nonempty patterns). -/
def goReplaceAll (s pat rep : String) : String :=
  String.mk (replaceAllAux pat.toList rep.toList (s.toList.length + 1) s.toList)

/-- Fuelled worker for `goSplitOn`. -/
def splitOnAux (sep : List Char) : Nat → List Char → List Char → List String
  | 0, acc, s => [String.mk (acc.reverse ++ s)]
  | fuel + 1, acc, s =>
    match dropLit sep s with
    | some rest => String.mk acc.reverse :: splitOnAux sep fuel [] rest
    | none =>
      match s with
      | [] => [String.mk acc.reverse]
      | c :: cs => splitOnAux sep fuel (c :: acc) cs

/-- `strings.Split` for a nonempty separator: splits around each leftmost
non-overlapping occurrence; the result is never empty. -/
def goSplitOn (s sep : String) : List String :=
  splitOnAux sep.toList (s.toList.length + 1) [] s.toList

/-- The ASCII white-space set trimmed by `strings.TrimSpace` (the Go
function also trims the rare non-ASCII Unicode spaces, which do not occur
in the version cells this is applied to). -/
def isTrimSpace (c : Char) : Bool :=
  c = ' ' || c = Char.ofNat 9 || c = Char.ofNat 10 || c = Char.ofNat 11 ||
    c = Char.ofNat 12 || c = Char.ofNat 13

/-- `strings.TrimSpace`. -/
def goTrim (s : String) : String :=
  String.mk (((s.toList.dropWhile isTrimSpace).reverse.dropWhile isTrimSpace).reverse)

/-! ## Data model (`internal/models`) -/

/-- `models.SourceRepo`. -/
structure SourceRepo where
  type_ : String
  url : String
  owner : String := ""
  repo : String := ""
  deriving DecidableEq

/-- `models.Release`; `date` is the `time.Time` modelled as an integer. -/
structure Release where
  version : String
  date : Int
  title : String
  description : String := ""
  url : String := ""
  type_ : String
  deriving DecidableEq

/-- `models.OSInfo` (used by the Bluefin OS release fetchers). -/
structure OSInfo where
  stream : String
  fedoraVersion : String := ""
  centosVersion : String := ""
  buildNumber : String
  commitHash : String := ""
  imageName : String
  kernelVersion : String := ""
  gnomeVersion : String := ""
  mesaVersion : String := ""
  majorPackages : List (String × String) := []
  deriving DecidableEq

/-- `models.HomebrewInfo`. -/
structure HomebrewInfo where
  formula : String
  fullName : String := ""
  tap : String := ""
  homepage : String := ""
  versions : List String := []
  deriving DecidableEq

/-- `models.App`; `fetchedAt` is the injected `time.Now()` value. -/
structure App where
  id : String
  name : String := ""
  summary : String := ""
  description : String := ""
  developerName : String := ""
  icon : String := ""
  projectLicense : String := ""
  categories : List String := []
  updatedAt : String := ""
  version : String := ""
  releaseDate : String := ""
  flathubURL : String := ""
  sourceRepo : Option SourceRepo := none
  releases : List Release := []
  fetchedAt : Int := 0
  packageType : String := ""
  experimental : Bool := false
  osInfo : Option OSInfo := none
  homebrewInfo : Option HomebrewInfo := none
  deriving DecidableEq

/-- `models.FlathubApp` (raw feed entry). -/
structure FlathubApp where
  id : String
  name : String := ""
  summary : String := ""
  developerName : String := ""
  icon : String := ""
  projectLicense : String := ""
  categories : List String := []
  currentReleaseVersion : String := ""
  currentReleaseDate : String := ""
  deriving DecidableEq

/-- `models.FlathubReleaseEntry`. -/
structure FlathubReleaseEntry where
  version : String
  date : String
  description : String := ""
  deriving DecidableEq

/-- `models.FlathubAppDetails`.  `urls` is the Go map `map[string]string`,
modelled as an association list whose list order is the (run-dependent)
iteration order; `none` is a nil map. -/
structure FlathubAppDetails where
  id : String := ""
  name : String := ""
  summary : String := ""
  description : String := ""
  urls : Option (List (String × String)) := none
  releases : List FlathubReleaseEntry := []
  deriving DecidableEq

/-- `models.FetchResults`. -/
structure FetchResults where
  apps : List App
  deriving DecidableEq

/-- `models.Stats`. -/
structure Stats where
  appsTotal : Nat := 0
  appsWithGitHubRepo : Nat := 0
  appsWithChangelogs : Nat := 0
  totalReleases : Nat := 0
  deriving DecidableEq

/-- `models.Performance`. -/
structure Performance where
  flathubFetchDuration : String := ""
  detailsFetchDuration : String := ""
  githubFetchDuration : String := ""
  outputDuration : String := ""
  deriving DecidableEq

/-- `models.Metadata`. -/
structure Metadata where
  schemaVersion : String := ""
  generatedAt : String := ""
  generatedBy : String := ""
  buildDuration : String := ""
  stats : Stats := {}
  performance : Performance := {}
  deriving DecidableEq

/-- `models.OutputData`. -/
structure OutputData where
  metadata : Metadata := {}
  apps : List App := []
  deriving DecidableEq

/-! ## HTTP response model

An outbound call is modelled by injecting its outcome.  `.ok v` is a 200
response whose body was read and decoded successfully into `v`;
`.status c` is a response with status code `c ≠ 200`; `.netErr` is a
transport failure of `http.Get`/`client.Do`; `.readErr` is an
`io.ReadAll` failure on a 200 response; `.decodeErr` is a
JSON-unmarshal failure on a 200 response. -/

inductive HttpResp (α : Type) where
  | netErr
  | status (code : Nat)
  | readErr
  | decodeErr
  | ok (val : α)
  deriving DecidableEq

/-! ## Flathub adapter (`internal/flathub/flathub.go`) -/

/-- Error values produced by the flathub fetchers, one constructor per
`fmt.Errorf` site.  Note there is no dedicated rate-limit constructor:
a 403/429 is reported through `unexpectedStatus`. -/
inductive FlathubErr where
  | fetchErr
  | unexpectedStatus (code : Nat)
  | readErr
  | unmarshalErr
  deriving DecidableEq

/-- Constructor index of a `FlathubErr`: two errors are of the same kind
(produced by the same error site of the Go code) iff their indices agree. -/
def FlathubErr.kindIdx : FlathubErr → Nat
  | .fetchErr => 0
  | .unexpectedStatus _ => 1
  | .readErr => 2
  | .unmarshalErr => 3

/-- `flathub.FetchRecentlyUpdated`: GET of the recently-updated feed.
Any non-200 status is the generic `unexpectedStatus` error. -/
def FetchRecentlyUpdated (resp : HttpResp (List FlathubApp)) :
    Except FlathubErr (List FlathubApp) :=
  match resp with
  | .netErr => .error .fetchErr
  | .status c => .error (.unexpectedStatus c)
  | .readErr => .error .readErr
  | .decodeErr => .error .unmarshalErr
  | .ok apps => .ok apps

/-- `flathub.FetchAppDetails`: GET of `appstream/{id}`.  A 404 returns
`(nil, nil)` — modelled as `.ok none`; any other non-200 status is the
generic `unexpectedStatus` error (including 403/429). -/
def FetchAppDetails (resp : HttpResp FlathubAppDetails) :
    Except FlathubErr (Option FlathubAppDetails) :=
  match resp with
  | .netErr => .error .fetchErr
  | .status c => if c = 404 then .ok none else .error (.unexpectedStatus c)
  | .readErr => .error .readErr
  | .decodeErr => .error .unmarshalErr
  | .ok d => .ok (some d)

/-- The pattern of `flathub.extractGitHubRepo`'s regexp
`github\.com/([^/]+)/([^/\s?#]+)` at one starting position: the literal
`github.com/`, a nonempty run of non-`/` characters (the owner), a `/`,
then a nonempty run of characters outside `/`, whitespace, `?`, `#`
(the repo). -/
def matchGhFlathub (s : List Char) : Option (String × String) :=
  match dropLit "github.com/".toList s with
  | none => none
  | some rest =>
    let ow := takeRun (fun c => !(c = '/')) rest
    if ow.1.isEmpty then none else
    match dropLit ['/'] ow.2 with
    | none => none
    | some rest2 =>
      let rp := takeRun (fun c => !(c = '/') && !(isGoSpace c) && !(c = '?') && !(c = '#')) rest2
      if rp.1.isEmpty then none else some (String.mk ow.1, String.mk rp.1)

/-- `flathub.extractGitHubRepo`: if the regexp finds no owner/repo pair the
result still has type `github` with the bare URL; otherwise a trailing
`.git` is trimmed from the repo component. -/
def extractGitHubRepo (url : String) : SourceRepo :=
  match firstMatch matchGhFlathub url.toList with
  | none => { type_ := "github", url := url }
  | some (ow, rp) =>
    { type_ := "github", url := url, owner := ow, repo := goTrimSuf rp ".git" }

/-- Go map lookup `m[k]` on the association-list model of `map[string]string`
(the list order is the iteration order; keys are unique in a real Go map). -/
def lookupStr (urls : List (String × String)) (k : String) : Option String :=
  (urls.find? (fun p => p.1 = k)).map (·.2)

/-- `flathub.ExtractSourceRepo`: chooses homepage, else bugtracker, else the
first URL *in map iteration order*, then classifies it as
github/gitlab/other. -/
def ExtractSourceRepo (details : Option FlathubAppDetails) : Option SourceRepo :=
  match details with
  | none => none
  | some d =>
    match d.urls with
    | none => none
    | some urls =>
      let repoURL :=
        match lookupStr urls "homepage" with
        | some h => h
        | none =>
          match lookupStr urls "bugtracker" with
          | some b => b
          | none =>
            match urls.head? with
            | some p => p.2
            | none => ""
      if repoURL = "" then none
      else if goContains repoURL "github.com" then some (extractGitHubRepo repoURL)
      else if goContains repoURL "gitlab.com" then some { type_ := "gitlab", url := repoURL }
      else some { type_ := "other", url := repoURL }

/-- The date of one converted Flathub release: `time.Parse("2006-01-02", ·)`,
falling back to `time.Parse(time.RFC3339, ·)`, falling back to `time.Now()`.
The two parsers are injected as oracles `pYMD` and `pRFC`. -/
def parseFlathubDate (pYMD pRFC : String → Option Int) (now : Int) (d : String) : Int :=
  match pYMD d with
  | some t => t
  | none =>
    match pRFC d with
    | some t => t
    | none => now

/-- `flathub.ConvertFlathubReleases`: converts every entry, in input order,
with no cap, no deduplication and no sorting; every output is tagged
`appstream`. -/
def ConvertFlathubReleases (pYMD pRFC : String → Option Int) (now : Int)
    (releases : List FlathubReleaseEntry) : List Release :=
  releases.map (fun r =>
    { version := r.version
      date := parseFlathubDate pYMD pRFC now r.date
      title := "Version " ++ r.version
      description := r.description
      type_ := "appstream" })

/-- `flathub.enrichApp`: builds the base app from the feed entry, then (in
order) attaches description, source repo and converted releases from the
details when the detail fetch succeeds with a non-nil result. -/
def enrichApp (detailsOf : String → HttpResp FlathubAppDetails)
    (pYMD pRFC : String → Option Int) (now : Int) (fa : FlathubApp) : App :=
  let app : App :=
    { id := fa.id
      name := fa.name
      summary := fa.summary
      developerName := fa.developerName
      icon := fa.icon
      projectLicense := fa.projectLicense
      categories := fa.categories
      version := fa.currentReleaseVersion
      releaseDate := fa.currentReleaseDate
      flathubURL := "https://flathub.org/apps/" ++ fa.id
      fetchedAt := now }
  match FetchAppDetails (detailsOf fa.id) with
  | .error _ => app
  | .ok none => app
  | .ok (some details) =>
    let app := { app with description := details.description }
    let app :=
      match ExtractSourceRepo (some details) with
      | some sr => { app with sourceRepo := some sr }
      | none => app
    if details.releases.length > 0 then
      { app with releases := ConvertFlathubReleases pYMD pRFC now details.releases }
    else app

/-- Fan-in of a `sync.WaitGroup` + mutex-append goroutine pool: the workers'
results are appended in completion order.  `sched` lists the worker indices
in the order their appends ran; a real execution has `sched` a permutation
of `List.range l.length`. -/
def completeInOrder {α : Type} (l : List α) (sched : List Nat) : List α :=
  sched.filterMap (fun i => l[i]?)

/-- `flathub.FetchAllApps`: discovery via `FetchRecentlyUpdated`; on a
discovery error the Go code calls `log.Fatalf`, aborting the entire run —
modelled as `.error ()`.  Otherwise at most 50 apps are enriched by parallel
goroutines whose results are collected in completion order `sched`. -/
def FetchAllApps (listResp : HttpResp (List FlathubApp))
    (detailsOf : String → HttpResp FlathubAppDetails)
    (pYMD pRFC : String → Option Int) (now : Int) (sched : List Nat) :
    Except Unit FetchResults :=
  match FetchRecentlyUpdated listResp with
  | .error _ => .error ()
  | .ok flathubApps =>
    let appsToFetch := if flathubApps.length > 50 then flathubApps.take 50 else flathubApps
    let enriched := appsToFetch.map (enrichApp detailsOf pYMD pRFC now)
    .ok { apps := completeInOrder enriched sched }

/-! ## Dataset writer (`models.WriteJSON`) -/

/-- Error values of `OutputData.WriteJSON`, one per `fmt.Errorf` site. -/
inductive WriteErr where
  | createFile
  | encodeJSON
  deriving DecidableEq

/-- Injected OS outcome of one `WriteJSON` call.  `createOk` is whether
`os.Create(path)` succeeds (on success it truncates an existing file at the
path to length zero before any encoding happens); `encodeOk` is whether
`encoder.Encode` succeeds; `writtenOnFail` is whatever byte prefix the failed
encoder had already flushed into the truncated file. -/
structure WriteOutcome where
  createOk : Bool
  encodeOk : Bool
  writtenOnFail : String
  deriving DecidableEq

/-- `models.OutputData.WriteJSON`, modelled together with its effect on the
destination file.  `encode` is the JSON serialization oracle
(`json.NewEncoder` with two-space indent, HTML escaping off); `pre` is the
destination file's contents before the call (`none` if absent).  Returns the
Go error result paired with the destination contents after the call.
The Go code opens the destination with `os.Create` — which truncates in
place — and encodes directly into it; there is no temp file or rename. -/
def WriteJSON (encode : OutputData → String) (w : WriteOutcome) (o : OutputData)
    (pre : Option String) : Except WriteErr Unit × Option String :=
  if !w.createOk then (.error .createFile, pre)
  else if !w.encodeOk then (.error .encodeJSON, some w.writtenOnFail)
  else (.ok (), some (encode o))

/-! ## Mozilla enrichment (`internal/mozilla`) -/

/-- `mozilla.EnrichWithMozillaReleases`: iterates over a copy of the app
list; for `org.mozilla.firefox` (resp. `org.mozilla.Thunderbird`), when the
corresponding fetch succeeds, the app's release list is **replaced** by the
fetched releases ("Replace the single Flathub release with actual Firefox
releases"); on a fetch error, and for every other app, the app is left
unchanged.  The network fetches `fetchFirefoxReleases` /
`fetchThunderbirdReleases` are injected as their results `ff` / `tb`. -/
def EnrichWithMozillaReleases (ff tb : Except Unit (List Release)) :
    List App → List App
  | [] => []
  | app :: rest =>
    let app' :=
      if app.id = "org.mozilla.firefox" then
        match ff with
        | .ok releases => { app with releases := releases }
        | .error _ => app
      else if app.id = "org.mozilla.Thunderbird" then
        match tb with
        | .ok releases => { app with releases := releases }
        | .error _ => app
      else app
    app' :: EnrichWithMozillaReleases ff tb rest

/-! ## Bluefin Brewfile adapter (`internal/bluefin/flatpaks.go`) -/

/-- Error values of `bluefin.fetchRawFile`, one per `fmt.Errorf` site.
Unlike the flathub adapter, a 404 is reported as a dedicated `notFound`
error (with the requested path), and a 403 as a dedicated `rateLimited`
error; other non-200 statuses (including 429) fall into the generic
`unexpectedStatus`. -/
inductive RawFileErr where
  | createReq
  | fetchErr
  | notFound (path : String)
  | rateLimited
  | unexpectedStatus (code : Nat)
  | readErr
  deriving DecidableEq

/-- Constructor index of a `RawFileErr`. -/
def RawFileErr.kindIdx : RawFileErr → Nat
  | .createReq => 0
  | .fetchErr => 1
  | .notFound _ => 2
  | .rateLimited => 3
  | .unexpectedStatus _ => 4
  | .readErr => 5

/-- `bluefin.fetchRawFile`: GET of a raw file from
`raw.githubusercontent.com`.  404 → `notFound` error; 403 → `rateLimited`
error; other non-200 → `unexpectedStatus`. -/
def fetchRawFile (resp : HttpResp String) (path : String) :
    Except RawFileErr String :=
  match resp with
  | .netErr => .error .fetchErr
  | .status c =>
    if c = 404 then .error (.notFound path)
    else if c = 403 then .error .rateLimited
    else .error (.unexpectedStatus c)
  | .readErr => .error .readErr
  -- the raw-file fetch has no JSON decode step, so a decode outcome cannot
  -- arise for it; it is folded into the body-read failure
  | .decodeErr => .error .readErr
  | .ok body => .ok body

/-- One match of the Brewfile patterns `flatpak\s+"([^"]+)"` and
`brew\s+"([^"]+)"` (and of the `.rb` patterns `desc\s+"([^"]+)"` etc.):
the keyword literal, at least one whitespace, a quote, a nonempty capture of
non-quote characters, a closing quote.  Returns the capture and the
remainder after the match (for `FindAllSubmatch` continuation). -/
def matchKwQuoted (kw : List Char) (s : List Char) : Option (String × List Char) :=
  match dropLit kw s with
  | none => none
  | some rest =>
    let sp := takeRun isGoSpace rest
    if sp.1.isEmpty then none else
    match dropLit ['"'] sp.2 with
    | none => none
    | some rest2 =>
      let cap := takeRun (fun c => !(c = '"')) rest2
      if cap.1.isEmpty then none else
      match dropLit ['"'] cap.2 with
      | none => none
      | some rest3 => some (String.mk cap.1, rest3)

/-- `bluefin.parseFlatpakBrewfile`: all captures of `flatpak\s+"([^"]+)"`. -/
def parseFlatpakBrewfile (content : String) : List String :=
  allMatches (matchKwQuoted "flatpak".toList) content.toList

/-- `bluefin.parseHomebrewBrewfile`: all captures of `brew\s+"([^"]+)"`. -/
def parseHomebrewBrewfile (content : String) : List String :=
  allMatches (matchKwQuoted "brew".toList) content.toList

/-- `bluefin.deduplicate`: first-occurrence deduplication of strings. -/
def deduplicate (items : List String) : List String :=
  (items.foldl (fun acc item => if acc.contains item then acc else acc ++ [item]) [])

/-- `bluefin.AppSetInfo`. -/
structure AppSetInfo where
  appID : String
  appSet : String
  deriving DecidableEq

/-- The two Brewfiles of `FetchFlatpakListWithAppSets` with their app-set
labels.  In the Go code this is a `map[string]string`, so its iteration
order — and hence the relative order of core vs dx entries — varies between
runs; the order is passed explicitly. -/
def flatpakBrewfiles : List (String × String) :=
  [("system_files/bluefin/usr/share/ublue-os/homebrew/system-flatpaks.Brewfile", "core"),
   ("system_files/bluefin/usr/share/ublue-os/homebrew/system-dx-flatpaks.Brewfile", "dx")]

/-- `bluefin.FetchFlatpakListWithAppSets`: for each Brewfile (in iteration
order `order`), fetch the raw file; a fetch error skips that file and the
loop continues with the others; the function never returns an error. -/
def FetchFlatpakListWithAppSets (raw : String → HttpResp String)
    (order : List (String × String)) : List AppSetInfo :=
  order.foldl (fun acc bf =>
    match fetchRawFile (raw bf.1) bf.1 with
    | .error _ => acc
    | .ok content =>
      acc ++ (parseFlatpakBrewfile content).map (fun appID => ⟨appID, bf.2⟩)) []

/-- `bluefin.FetchFlatpakList`: the app IDs of `FetchFlatpakListWithAppSets`. -/
def FetchFlatpakList (raw : String → HttpResp String)
    (order : List (String × String)) : List String :=
  (FetchFlatpakListWithAppSets raw order).map (·.appID)

/-! ## Bluefin Homebrew adapter (`internal/bluefin` homebrew code) -/

/-- `bluefin.HomebrewFormula` (flattened: `Versions.Stable`, `URLs.Stable.URL`
and the bottle's `Stable.Files` map are the only nested fields the code
reads; the bottle files map is modelled by its key list, its iteration
order being irrelevant to the one `any`-style scan performed on it). -/
structure HomebrewFormula where
  name : String
  fullName : String := ""
  tap : String := ""
  desc : String := ""
  license : String := ""
  homepage : String := ""
  versionsStable : String := ""
  urlStable : String := ""
  deprecated : Bool := false
  disabled : Bool := false
  bottleFiles : Option (List String) := none
  deriving DecidableEq

/-- Error values of `bluefin.fetchHomebrewPackageMetadata`. -/
inductive HomebrewErr where
  | createReq
  | fetchErr
  | unexpectedStatus (code : Nat)
  | readErr
  | unmarshalErr
  deriving DecidableEq

/-- `bluefin.isLinuxCompatible`: a nil bottle is compatible; otherwise some
bottle file name must contain `linux`. -/
def isLinuxCompatible (formula : HomebrewFormula) : Bool :=
  match formula.bottleFiles with
  | none => true
  | some files => files.any (fun filename => goContains filename "linux")

/-- The pattern of `bluefin.extractGitHubRepoFromURL`'s regexp
`github\.com[/:]([^/]+)/([^/\.]+)`: the literal `github.com`, a `/` or `:`,
a nonempty run of non-`/` characters, a `/`, a nonempty run of characters
that are neither `/` nor `.`. -/
def matchGhHomebrew (s : List Char) : Option (String × String) :=
  match dropLit "github.com".toList s with
  | none => none
  | some rest =>
    match rest with
    | [] => none
    | c :: cs =>
      if c = '/' || c = ':' then
        let ow := takeRun (fun ch => !(ch = '/')) cs
        if ow.1.isEmpty then none else
        match dropLit ['/'] ow.2 with
        | none => none
        | some rest2 =>
          let rp := takeRun (fun ch => !(ch = '/') && !(ch = '.')) rest2
          if rp.1.isEmpty then none else some (String.mk ow.1, String.mk rp.1)
      else none

/-- `bluefin.extractGitHubRepoFromURL`: unlike the flathub variant, a
non-matching URL yields `nil`, and the stored URL is rebuilt from the
captured owner/repo. -/
def extractGitHubRepoFromURL (urlStr : String) : Option SourceRepo :=
  match firstMatch matchGhHomebrew urlStr.toList with
  | none => none
  | some (ow, rp) =>
    some { type_ := "github", url := "https://github.com/" ++ ow ++ "/" ++ rp,
           owner := ow, repo := rp }

/-- `bluefin.createMinimalHomebrewApp`: minimal entry for custom-tap
packages; `/` in the name are replaced by `-` in the ID, and the display
name is the last `/`-separated component after trimming a `homebrew-`
prefix. -/
def createMinimalHomebrewApp (now : Int) (packageName : String) : App :=
  let cleanName := goTrimPre packageName "homebrew-"
  let cleanName :=
    if goContains cleanName "/" then
      (goSplitOn cleanName "/").getLastD cleanName
    else cleanName
  { id := "homebrew-" ++ goReplaceAll packageName "/" "-"
    name := cleanName
    summary := "Homebrew package: " ++ cleanName
    packageType := "homebrew"
    fetchedAt := now
    homebrewInfo := some { formula := packageName } }

/-- `bluefin.convertHomebrewFormulaToApp`. -/
def convertHomebrewFormulaToApp (now : Int) (formula : HomebrewFormula) : App :=
  let cleanName := goTrimPre formula.name "homebrew-"
  let app : App :=
    { id := "homebrew-" ++ formula.name
      name := cleanName
      summary := formula.desc
      description := formula.desc
      version := formula.versionsStable
      packageType := "homebrew"
      fetchedAt := now
      homebrewInfo := some
        { formula := formula.name
          fullName := formula.fullName
          tap := formula.tap
          homepage := formula.homepage
          versions := [formula.versionsStable] } }
  if formula.urlStable ≠ "" then
    match extractGitHubRepoFromURL formula.urlStable with
    | some sr => { app with sourceRepo := some sr }
    | none => app
  else if formula.homepage ≠ "" && goContains formula.homepage "github.com" then
    match extractGitHubRepoFromURL formula.homepage with
    | some sr => { app with sourceRepo := some sr }
    | none => app
  else app

/-- `bluefin.fetchHomebrewPackageMetadata`: custom-tap names (containing
`/`) yield the minimal app without any network call; a 404 from the formula
API also yields the minimal app with a nil error; deprecated/disabled and
non-Linux formulae yield `(nil, nil)`; other non-200 statuses are errors. -/
def fetchHomebrewPackageMetadata (api : String → HttpResp HomebrewFormula)
    (now : Int) (packageName : String) : Except HomebrewErr (Option App) :=
  if goContains packageName "/" then
    .ok (some (createMinimalHomebrewApp now packageName))
  else
    match api packageName with
    | .netErr => .error .fetchErr
    | .status c =>
      if c = 404 then .ok (some (createMinimalHomebrewApp now packageName))
      else .error (.unexpectedStatus c)
    | .readErr => .error .readErr
    | .decodeErr => .error .unmarshalErr
    | .ok formula =>
      if formula.deprecated || formula.disabled then .ok none
      else if !(isLinuxCompatible formula) then .ok none
      else .ok (some (convertHomebrewFormulaToApp now formula))

/-- The four Brewfiles scanned by `bluefin.FetchHomebrewList` (a Go slice,
so their order is fixed). -/
def homebrewBrewfiles : List String :=
  ["system_files/shared/usr/share/ublue-os/homebrew/cli.Brewfile",
   "system_files/shared/usr/share/ublue-os/homebrew/ai-tools.Brewfile",
   "system_files/shared/usr/share/ublue-os/homebrew/k8s-tools.Brewfile",
   "system_files/shared/usr/share/ublue-os/homebrew/ide.Brewfile"]

/-- `bluefin.FetchHomebrewList`: per-file fetch failures are skipped; the
accumulated names are deduplicated; the Go function always returns a nil
error. -/
def FetchHomebrewList (raw : String → HttpResp String) : List String :=
  deduplicate (homebrewBrewfiles.foldl (fun acc bf =>
    match fetchRawFile (raw bf) bf with
    | .error _ => acc
    | .ok content => acc ++ parseHomebrewBrewfile content) [])

/-- `bluefin.FetchHomebrewPackages`: metadata is fetched for every listed
package by a semaphore-bounded goroutine pool; successful non-nil apps are
mutex-appended in completion order `sched`; per-package failures are logged
and skipped; the Go function's only error path is `FetchHomebrewList`,
which never fails, so the result is a plain list. -/
def FetchHomebrewPackages (raw : String → HttpResp String)
    (api : String → HttpResp HomebrewFormula) (now : Int) (sched : List Nat) :
    List App :=
  let packageNames := FetchHomebrewList raw
  let outcomes := packageNames.map (fetchHomebrewPackageMetadata api now)
  (completeInOrder outcomes sched).filterMap (fun r =>
    match r with
    | .ok (some app) => some app
    | _ => none)

/-! ## Bluefin ublue-os tap adapter (`internal/bluefin/homebrew_taps.go`) -/

/-- `bluefin.GitHubContentItem` (only `name` is read by the code). -/
structure GitHubContentItem where
  name : String
  path : String := ""
  type_ : String := ""
  downloadURL : String := ""
  deriving DecidableEq

/-- `bluefin.FormulaMetadata`. -/
structure FormulaMetadata where
  description : String := ""
  homepage : String := ""
  version : String := ""
  gitHubRepo : String := ""
  deriving DecidableEq

/-- The pattern of `parseRubyFormula`'s regexp
`github\.com[/:]([^/\s"]+)/([^/\s"\.]+)`. -/
def matchGhRuby (s : List Char) : Option (String × String) :=
  match dropLit "github.com".toList s with
  | none => none
  | some rest =>
    match rest with
    | [] => none
    | c :: cs =>
      if c = '/' || c = ':' then
        let ow := takeRun (fun ch => !(ch = '/') && !(isGoSpace ch) && !(ch = '"')) cs
        if ow.1.isEmpty then none else
        match dropLit ['/'] ow.2 with
        | none => none
        | some rest2 =>
          let rp := takeRun
            (fun ch => !(ch = '/') && !(isGoSpace ch) && !(ch = '"') && !(ch = '.')) rest2
          if rp.1.isEmpty then none else some (String.mk ow.1, String.mk rp.1)
      else none

/-- `bluefin.parseRubyFormula`: first captures of `desc\s+"([^"]+)"`,
`homepage\s+"([^"]+)"`, `version\s+"([^"]+)"` and the github owner/repo
pattern. -/
def parseRubyFormula (content : String) : FormulaMetadata :=
  let cs := content.toList
  { description := ((firstMatch (matchKwQuoted "desc".toList) cs).map (·.1)).getD ""
    homepage := ((firstMatch (matchKwQuoted "homepage".toList) cs).map (·.1)).getD ""
    version := ((firstMatch (matchKwQuoted "version".toList) cs).map (·.1)).getD ""
    gitHubRepo :=
      match firstMatch matchGhRuby cs with
      | some (ow, rp) => ow ++ "/" ++ rp
      | none => "" }

/-- Error values of `parseTapPackage` / `fetchTapDirectory`. -/
inductive TapErr where
  | createReq
  | fetchErr
  | unexpectedStatus (code : Nat)
  | readErr
  | decodeErr
  deriving DecidableEq

/-- `bluefin.parseTapPackage`: fetches the raw `.rb` file (response injected
via `fileResp`, keyed by repo/directory/filename) and builds the tap App.
The ID is `homebrew-` + the full name `owner/tap/pkg` with `/` replaced by
`-`. -/
def parseTapPackage (fileResp : String → String → String → HttpResp String)
    (now : Int) (owner repo directory filename pkgName pkgType : String)
    (experimental : Bool) : Except TapErr App :=
  match fileResp repo directory filename with
  | .netErr => .error .fetchErr
  | .status c => .error (.unexpectedStatus c)
  | .readErr => .error .readErr
  | .decodeErr => .error .readErr
  | .ok content =>
    let metadata := parseRubyFormula content
    let tapName := owner ++ "/" ++ goTrimPre repo "homebrew-"
    let fullName := tapName ++ "/" ++ pkgName
    let app : App :=
      { id := "homebrew-" ++ goReplaceAll fullName "/" "-"
        name := pkgName
        summary := metadata.description
        description := metadata.description
        version := metadata.version
        packageType := "homebrew"
        experimental := experimental
        fetchedAt := now
        homebrewInfo := some
          { formula := fullName
            tap := tapName
            homepage := metadata.homepage
            versions := [metadata.version] } }
    let app :=
      if app.summary = "" then
        { app with summary := "Homebrew " ++ pkgType ++ ": " ++ pkgName }
      else app
    let app :=
      if metadata.gitHubRepo ≠ "" then
        match goSplitOn metadata.gitHubRepo "/" with
        | [ow, rp] =>
          let sr : SourceRepo :=
            { type_ := "github", owner := ow, repo := rp,
              url := "https://github.com/" ++ metadata.gitHubRepo }
          { app with sourceRepo := some sr }
        | _ => app
      else app
    .ok app

/-- `bluefin.fetchTapDirectory`: lists a repo directory via the GitHub
contents API (response injected via `dirResp`, keyed by repo/directory).
A 404 is an **empty result with a nil error**; non-`.rb` entries are
skipped; per-file parse failures are skipped. -/
def fetchTapDirectory (dirResp : String → String → HttpResp (List GitHubContentItem))
    (fileResp : String → String → String → HttpResp String) (now : Int)
    (owner repo directory pkgType : String) (experimental : Bool) :
    Except TapErr (List App) :=
  match dirResp repo directory with
  | .netErr => .error .fetchErr
  | .status c => if c = 404 then .ok [] else .error (.unexpectedStatus c)
  | .readErr => .error .decodeErr
  | .decodeErr => .error .decodeErr
  | .ok files =>
    .ok (files.foldl (fun acc file =>
      if !(strEndsWith file.name ".rb") then acc
      else
        let pkgName := goTrimSuf file.name ".rb"
        match parseTapPackage fileResp now owner repo directory file.name pkgName
            pkgType experimental with
        | .error _ => acc
        | .ok app => acc ++ [app]) [])

/-- The taps scanned by `FetchUblueOSTapPackages` (a Go slice, fixed order). -/
def ublueTaps : List (String × String × Bool) :=
  [("ublue-os", "homebrew-tap", false),
   ("ublue-os", "homebrew-experimental-tap", true)]

/-- `bluefin.FetchUblueOSTapPackages`: one goroutine per tap, each appending
first its formulae chunk and then its casks chunk under the shared mutex;
failed chunks are skipped.  The four chunks (tap₁ formulae, tap₁ casks,
tap₂ formulae, tap₂ casks) are interleaved in completion order
`chunkSched`; a real execution has `chunkSched` a permutation of
`List.range 4` in which chunk `2i` precedes chunk `2i+1`.  The Go function
always returns a nil error. -/
def FetchUblueOSTapPackages
    (dirResp : String → String → HttpResp (List GitHubContentItem))
    (fileResp : String → String → String → HttpResp String) (now : Int)
    (chunkSched : List Nat) : List App :=
  let chunks := ublueTaps.flatMap (fun t =>
    [fetchTapDirectory dirResp fileResp now t.1 t.2.1 "Formula" "formula" t.2.2,
     fetchTapDirectory dirResp fileResp now t.1 t.2.1 "Casks" "cask" t.2.2])
  (completeInOrder chunks chunkSched).flatMap (fun r =>
    match r with
    | .error _ => []
    | .ok apps => apps)

/-! ## Bluefin OS release fetchers (`internal/bluefin` release code) -/

/-- `bluefin.GitHubRelease`; `publishedAt` is the `time.Time` as an
integer. -/
structure GitHubRelease where
  tagName : String
  name : String := ""
  body : String := ""
  htmlURL : String := ""
  publishedAt : Int := 0
  draft : Bool := false
  prerelease : Bool := false
  deriving DecidableEq

/-- Error values of the GitHub release-list fetchers, one per `fmt.Errorf`
site: a 403 gets the dedicated `rateLimited` error, every other non-200
status (including 429) the generic `unexpectedStatus`. -/
inductive GHErr where
  | createReq
  | fetchErr
  | rateLimited
  | unexpectedStatus (code : Nat)
  | readErr
  | unmarshalErr
  deriving DecidableEq

/-- Constructor index of a `GHErr`. -/
def GHErr.kindIdx : GHErr → Nat
  | .createReq => 0
  | .fetchErr => 1
  | .rateLimited => 2
  | .unexpectedStatus _ => 3
  | .readErr => 4
  | .unmarshalErr => 5

/-- The status handling shared by `FetchBluefinReleases`,
`FetchBluefinOSApps` and `FetchBluefinLTSApps`: 403 → `rateLimited`,
other non-200 → `unexpectedStatus`. -/
def fetchGitHubReleaseList (resp : HttpResp (List GitHubRelease)) :
    Except GHErr (List GitHubRelease) :=
  match resp with
  | .netErr => .error .fetchErr
  | .status c => if c = 403 then .error .rateLimited else .error (.unexpectedStatus c)
  | .readErr => .error .readErr
  | .decodeErr => .error .unmarshalErr
  | .ok rels => .ok rels

/-- `bluefin.parseReleaseNotes` = `markdown.ToHTML`.
Modelled from the spec: the `internal/markdown` renderer is not among the
sources; the spec treats it as the opaque conversion of "vendor markup in
the release body to the canonical description format", so it is injected
as an uninterpreted function `toHTML`. -/
def parseReleaseNotes (toHTML : String → String) (body : String) : String :=
  toHTML body

/-- The conversion loop body of `bluefin.FetchBluefinReleases`: draft and
prerelease entries are skipped; the rest are converted, with the body
rendered by `parseReleaseNotes`. -/
def convertBluefinReleases (toHTML : String → String)
    (githubReleases : List GitHubRelease) : List Release :=
  githubReleases.foldl (fun releases g =>
    if g.draft || g.prerelease then releases
    else releases ++
      [{ version := g.tagName
         date := g.publishedAt
         title := g.name
         description := parseReleaseNotes toHTML g.body
         url := g.htmlURL
         type_ := "bluefin-os-release" }]) []

/-- `bluefin.FetchBluefinReleases`. -/
def FetchBluefinReleases (resp : HttpResp (List GitHubRelease))
    (toHTML : String → String) : Except GHErr (List Release) :=
  match fetchGitHubReleaseList resp with
  | .error e => .error e
  | .ok githubReleases => .ok (convertBluefinReleases toHTML githubReleases)

/-- The pattern of `parseOSInfo`'s regexp `F(\d+)\.\d+`: `F`, a nonempty
digit run (captured), `.`, a nonempty digit run. -/
def matchFedoraVer (s : List Char) : Option String :=
  match dropLit ['F'] s with
  | none => none
  | some rest =>
    let d1 := takeRun Char.isDigit rest
    if d1.1.isEmpty then none else
    match dropLit ['.'] d1.2 with
    | none => none
    | some rest2 =>
      let d2 := takeRun Char.isDigit rest2
      if d2.1.isEmpty then none else some (String.mk d1.1)

/-- The pattern of the regexp `#([a-f0-9]+)`: `#` then a nonempty run of
lowercase-hex characters (captured). -/
def matchCommitHash (s : List Char) : Option String :=
  match dropLit ['#'] s with
  | none => none
  | some rest =>
    let h := takeRun (fun c => c.isDigit || ('a' ≤ c && c ≤ 'f')) rest
    if h.1.isEmpty then none else some (String.mk h.1)

/-- The pattern of `extractPackageVersion`'s regexp
`\|\s*\*\*NAME\*\*\s*\|\s*([^\|]+)\s*\|` at one position. -/
def matchPkgVer (nm : List Char) (s : List Char) : Option String :=
  match dropLit ['|'] s with
  | none => none
  | some r1 =>
    match dropLit ("**".toList ++ nm ++ "**".toList) (takeRun isGoSpace r1).2 with
    | none => none
    | some r2 =>
      match dropLit ['|'] (takeRun isGoSpace r2).2 with
      | none => none
      | some r3 =>
        let cap := takeRun (fun c => !(c = '|')) (takeRun isGoSpace r3).2
        if cap.1.isEmpty then none else
        match dropLit ['|'] cap.2 with
        | none => none
        | some _ => some (String.mk cap.1)

/-- `bluefin.extractPackageVersion`: first match of the table-row pattern;
the captured cell is trimmed, and if it contains the arrow `➡️` (a version
change), the part after the arrow is taken. -/
def extractPackageVersion (body packageName : String) : String :=
  match firstMatch (matchPkgVer packageName.toList) body.toList with
  | none => ""
  | some cap =>
    let version := goTrim cap
    if goContains version "➡️" then
      match (goSplitOn version "➡️").tail with
      | second :: _ => goTrim second
      | [] => version
    else version

/-- The `majorPackages` map built by `parseOSInfo`/`parseLTSInfo` (insertion
order Podman, Nvidia, Docker, Incus; only present versions are inserted). -/
def majorPackagesOf (body : String) : List (String × String) :=
  (if extractPackageVersion body "Podman" ≠ "" then
    [("Podman", extractPackageVersion body "Podman")] else []) ++
  (if extractPackageVersion body "Nvidia" ≠ "" then
    [("Nvidia", extractPackageVersion body "Nvidia")] else []) ++
  (if extractPackageVersion body "Docker" ≠ "" then
    [("Docker", extractPackageVersion body "Docker")] else []) ++
  (if extractPackageVersion body "Incus" ≠ "" then
    [("Incus", extractPackageVersion body "Incus")] else [])

/-- `bluefin.parseOSInfo`: the stream is the part of the tag before the
first `-` (default `stable` for tags without `-`), the build number the
part after it. -/
def parseOSInfo (release : GitHubRelease) : OSInfo :=
  let parts := goSplitOn release.tagName "-"
  let sb :=
    match parts with
    | p1 :: p2 :: _ => (p1, p2)
    | _ => ("stable", release.tagName)
  { stream := sb.1
    buildNumber := sb.2
    fedoraVersion := (firstMatch matchFedoraVer release.name.toList).getD ""
    commitHash := (firstMatch matchCommitHash release.name.toList).getD ""
    imageName := "ghcr.io/ublue-os/bluefin:" ++ sb.1
    kernelVersion := extractPackageVersion release.body "Kernel"
    gnomeVersion := extractPackageVersion release.body "Gnome"
    mesaVersion := extractPackageVersion release.body "Mesa"
    majorPackages := majorPackagesOf release.body }

/-- `bluefin.formatOSName`. -/
def formatOSName (osInfo : OSInfo) : String :=
  if osInfo.stream = "gts" then "Bluefin GTS"
  else if osInfo.stream = "lts" then "Bluefin LTS"
  else "Bluefin"

/-- `bluefin.extractSummary` (its `release` argument is unused in the Go
code as well). -/
def extractSummary (_release : GitHubRelease) (osInfo : OSInfo) : String :=
  let sn :=
    if osInfo.stream = "gts" then
      ("GTS (General-Term Support)", "Fedora " ++ osInfo.fedoraVersion)
    else if osInfo.stream = "lts" then
      ("LTS (Long-Term Support)", "CentOS Stream " ++ osInfo.centosVersion)
    else ("Stable", "Fedora " ++ osInfo.fedoraVersion)
  let summary := sn.1 ++ " release based on " ++ sn.2
  if osInfo.kernelVersion ≠ "" then summary ++ " with Kernel " ++ osInfo.kernelVersion
  else summary

/-- Go map lookup on the `latestByStream` association list. -/
def lookupRel (m : List (String × GitHubRelease)) (s : String) : Option GitHubRelease :=
  (m.find? (fun p => p.1 = s)).map (·.2)

/-- Go map assignment `m[s] = g` when `s` is already a key. -/
def updateRel (m : List (String × GitHubRelease)) (s : String) (g : GitHubRelease) :
    List (String × GitHubRelease) :=
  m.map (fun p => if p.1 = s then (s, g) else p)

/-- One iteration of the `latestByStream` selection loop of
`FetchBluefinOSApps`: drafts and prereleases are skipped; otherwise the
release is stored under its stream unless a strictly later
(`PublishedAt.After`) release is already stored. -/
def latestStep (m : List (String × GitHubRelease)) (g : GitHubRelease) :
    List (String × GitHubRelease) :=
  if g.draft || g.prerelease then m
  else
    let s := (parseOSInfo g).stream
    match lookupRel m s with
    | none => m ++ [(s, g)]
    | some ex => if g.publishedAt > ex.publishedAt then updateRel m s g else m

/-- The `latestByStream` map after the whole selection loop. -/
def latestByStream (githubReleases : List GitHubRelease) :
    List (String × GitHubRelease) :=
  githubReleases.foldl latestStep []

/-- The App built by `FetchBluefinOSApps` for the latest release of one
stream.  `fmtRFC` is the injected `time.Time.Format(time.RFC3339)`. -/
def buildBluefinOSApp (now : Int) (fmtRFC : Int → String) (toHTML : String → String)
    (g : GitHubRelease) : App :=
  let osInfo := parseOSInfo g
  let sr : SourceRepo :=
    { type_ := "github", url := "https://github.com/ublue-os/bluefin",
      owner := "ublue-os", repo := "bluefin" }
  { id := "bluefin-os-" ++ osInfo.stream
    name := formatOSName osInfo
    summary := extractSummary g osInfo
    description := g.body
    icon := "https://avatars.githubusercontent.com/u/120078124?s=200&v=4"
    version := g.tagName
    releaseDate := fmtRFC g.publishedAt
    updatedAt := fmtRFC g.publishedAt
    flathubURL := g.htmlURL
    sourceRepo := some sr
    fetchedAt := now
    packageType := "os"
    osInfo := some osInfo
    releases :=
      [{ version := g.tagName
         date := g.publishedAt
         title := g.name
         description := parseReleaseNotes toHTML g.body
         url := g.htmlURL
         type_ := "bluefin-os-release" }] }

/-- `bluefin.FetchBluefinOSApps`: fetches the release list, selects the
latest non-draft non-prerelease release of each stream, and emits one App
per stream.  The final loop ranges over the Go map `latestByStream`, so the
emission order is the run-dependent map iteration order `streamOrder`
(a real run has it a permutation of the map's keys). -/
def FetchBluefinOSApps (resp : HttpResp (List GitHubRelease)) (now : Int)
    (fmtRFC : Int → String) (toHTML : String → String) (streamOrder : List String) :
    Except GHErr (List App) :=
  match fetchGitHubReleaseList resp with
  | .error e => .error e
  | .ok githubReleases =>
    let m := latestByStream githubReleases
    .ok (streamOrder.filterMap (fun s =>
      (lookupRel m s).map (buildBluefinOSApp now fmtRFC toHTML)))

/-! ## Pipeline assembly (`cmd/bluefin-releases/main.go`)

The checked-in pipeline driver is present in the repository only as the
integration code quoted in its plan and verification documents: each
discovery source's result slice is appended to one `allApps` slice
(`allApps = append(allApps, …)`), with no merge-by-identifier step
anywhere. -/

/-- The `allApps` accumulation of the pipeline driver: plain concatenation
of the per-source results, in integration order. -/
def mainAllApps (flathubApps osApps homebrewApps tapApps : List App) : List App :=
  flathubApps ++ osApps ++ homebrewApps ++ tapApps

/-! ## Spec-side definitions

These definitions follow the specification's words (not the code) and are
used only to compare the code's behaviour against what the spec claims. -/

/-- The release list is ordered newest-first by publication date. -/
def releasesNewestFirst (rs : List Release) : Prop :=
  rs.Pairwise (fun a b => b.date ≤ a.date)

instance : DecidablePred releasesNewestFirst := fun rs =>
  inferInstanceAs (Decidable (rs.Pairwise _))

/-- The release list is unique by (version label, origin-type) pair. -/
def uniqueByVersionType (rs : List Release) : Prop :=
  (rs.map (fun r => (r.version, r.type_))).Nodup

instance : DecidablePred uniqueByVersionType := fun rs =>
  inferInstanceAs (Decidable ((rs.map _).Nodup))

/-- First-occurrence deduplication by (version, origin-type), as the spec's
merge rule describes it. -/
def dedupByVersionTypeSpec (rs : List Release) : List Release :=
  rs.foldl (fun acc r =>
    if acc.any (fun a => a.version == r.version && a.type_ == r.type_) then acc
    else acc ++ [r]) []

/-- The spec's enrichment merge rule: newly fetched source-repository
releases are prepended ahead of the existing (package-metadata) releases,
then the concatenation is deduplicated by (version, origin-type) and
truncated to the cap. -/
def mergeReleasesSpec (cap : Nat) (fetched existing : List Release) : List Release :=
  (dedupByVersionTypeSpec (fetched ++ existing)).take cap

/-! ## Helper lemmas -/

/-- A left fold that only ever appends is the flat map of its per-item
contributions. -/
theorem foldl_append_eq {α β : Type} (g : α → List β) :
    ∀ (l : List α) (init : List β),
      l.foldl (fun acc x => acc ++ g x) init = init ++ l.flatMap g := by
  intro l
  induction l with
  | nil => intro init; simp
  | cons x xs ih =>
    intro init
    simp only [List.foldl_cons, List.flatMap_cons]
    rw [ih, List.append_assoc]

/-- Collecting every index of a list in order reproduces the list. -/
theorem completeInOrder_range {α : Type} (l : List α) :
    completeInOrder l (List.range l.length) = l := by
  unfold completeInOrder
  induction l using List.reverseRecOn with
  | nil => simp
  | append_singleton xs x ih =>
    rw [List.length_append, List.length_singleton, List.range_succ,
      List.filterMap_append]
    have hA : List.filterMap (fun i => (xs ++ [x])[i]?) (List.range xs.length) =
        List.filterMap (fun i => xs[i]?) (List.range xs.length) := by
      apply List.filterMap_congr
      intro i hi
      rw [List.mem_range] at hi
      rw [List.getElem?_append_left hi]
    have hB : List.filterMap (fun i => (xs ++ [x])[i]?) [xs.length] = [x] := by
      simp [List.filterMap_cons, List.getElem?_append_right (Nat.le_refl xs.length)]
    rw [hA, hB, ih]

/-- Two completion orders that are permutations of each other collect
permuted results. -/
theorem completeInOrder_perm {α : Type} (l : List α) {s₁ s₂ : List Nat}
    (h : s₁.Perm s₂) : (completeInOrder l s₁).Perm (completeInOrder l s₂) :=
  h.filterMap _

/-- In a list with duplicate-free keys, two members with the same key are
equal. -/
theorem key_unique {β : Type} :
    ∀ {l : List (String × β)}, (l.map Prod.fst).Nodup →
      ∀ {a b : String × β}, a ∈ l → b ∈ l → a.1 = b.1 → a = b := by
  intro l
  induction l with
  | nil => intro _ a b ha; cases ha
  | cons p t ih =>
    intro hnd a b ha hb hk
    rw [List.map_cons, List.nodup_cons] at hnd
    rcases List.mem_cons.mp ha with rfl | ha' <;>
      rcases List.mem_cons.mp hb with rfl | hb'
    · rfl
    · exact absurd (hk ▸ List.mem_map_of_mem Prod.fst hb') hnd.1
    · exact absurd (hk.symm ▸ List.mem_map_of_mem Prod.fst ha') hnd.1
    · exact ih hnd.2 ha' hb' hk

/-- `find?` by key is stable under permutation when keys are
duplicate-free. -/
theorem find_key_perm {β : Type} [DecidableEq β] {l₁ l₂ : List (String × β)}
    (hp : l₁.Perm l₂) (hnd : (l₁.map Prod.fst).Nodup) (k : String) :
    l₁.find? (fun p => p.1 = k) = l₂.find? (fun p => p.1 = k) := by
  cases h₁ : l₁.find? (fun p => p.1 = k) with
  | none =>
    rw [List.find?_eq_none] at h₁
    symm
    rw [List.find?_eq_none]
    intro x hx
    exact h₁ x (hp.mem_iff.mpr hx)
  | some x =>
    have hxk : x.1 = k := by simpa using List.find?_some h₁
    have hxm₂ : x ∈ l₂ := hp.mem_iff.mp (List.mem_of_find?_eq_some h₁)
    have hsome : (l₂.find? (fun p => p.1 = k)).isSome :=
      List.find?_isSome.mpr ⟨x, hxm₂, by simpa using hxk⟩
    cases h₂ : l₂.find? (fun p => p.1 = k) with
    | none => rw [h₂] at hsome; cases hsome
    | some y =>
      have hyk : y.1 = k := by simpa using List.find?_some h₂
      have hym₁ : y ∈ l₁ := hp.mem_iff.mpr (List.mem_of_find?_eq_some h₂)
      have hxy : x = y :=
        key_unique hnd (List.mem_of_find?_eq_some h₁) hym₁ (by rw [hxk, hyk])
      rw [hxy]

/-! ## Claim C1 — Dataset Writer atomicity -/

/-- C1 (counterexample): the claim "if WriteJSON returns an error, the file
at the destination path is unchanged from its pre-call contents" is false:
when `os.Create` succeeds (truncating the destination) and the encoder then
fails without flushing anything, `WriteJSON` returns an error yet the
destination has been changed from the previous dataset to the empty file. -/
theorem C1_counterexample :
    (WriteJSON (fun _ => "serialized output") ⟨true, false, ""⟩ {} (some "previous dataset")).1
      = .error .encodeJSON ∧
    (WriteJSON (fun _ => "serialized output") ⟨true, false, ""⟩ {} (some "previous dataset")).2
      = some "" ∧
    some "" ≠ some "previous dataset" := by
  refine ⟨rfl, rfl, by decide⟩

/-- C1 (amended): `WriteJSON` writes through `os.Create` directly, with no
temp-file-and-rename step: only a failure of `os.Create` itself leaves the
destination unchanged; an encoder failure leaves the destination truncated
to whatever partial output the encoder flushed; on success the destination
holds the serialized output. -/
theorem C1_write_effect (encode : OutputData → String) (w : WriteOutcome)
    (o : OutputData) (pre : Option String) :
    (w.createOk = false → WriteJSON encode w o pre = (.error .createFile, pre)) ∧
    (w.createOk = true → w.encodeOk = false →
      WriteJSON encode w o pre = (.error .encodeJSON, some w.writtenOnFail)) ∧
    (w.createOk = true → w.encodeOk = true →
      WriteJSON encode w o pre = (.ok (), some (encode o))) := by
  refine ⟨fun h1 => ?_, fun h1 h2 => ?_, fun h1 h2 => ?_⟩
  · simp [WriteJSON, h1]
  · simp [WriteJSON, h1, h2]
  · simp [WriteJSON, h1, h2]

/-- C1 witness: the amended theorem evaluated at concrete outcomes. -/
theorem C1_write_effect_witness :
    WriteJSON (fun _ => "out") ⟨false, true, ""⟩ {} (some "old")
      = (.error .createFile, some "old") ∧
    WriteJSON (fun _ => "out") ⟨true, false, "trunc"⟩ {} none
      = (.error .encodeJSON, some "trunc") :=
  ⟨(C1_write_effect (fun _ => "out") ⟨false, true, ""⟩ {} (some "old")).1 rfl,
   (C1_write_effect (fun _ => "out") ⟨true, false, "trunc"⟩ {} none).2.1 rfl rfl⟩

/-! ## Claim C8 — rate-limit signals as a distinguished error kind -/

/-- C8 (counterexample): the claim "every source adapter returns an explicit
rate-limit response (HTTP 403/429) as a distinguished error kind" is false:
the flathub detail adapter reports a 403 through the *same* generic
unexpected-status error site as a 500, and the raw-file adapter reports a
429 through its generic unexpected-status site as well — neither is
distinguishable as a rate-limit kind by the caller. -/
theorem C8_counterexample :
    FetchAppDetails (.status 403) = .error (.unexpectedStatus 403) ∧
    FetchAppDetails (.status 500) = .error (.unexpectedStatus 500) ∧
    FlathubErr.kindIdx (.unexpectedStatus 403) = FlathubErr.kindIdx (.unexpectedStatus 500) ∧
    fetchRawFile (.status 429) "some/path" = .error (.unexpectedStatus 429) ∧
    RawFileErr.kindIdx (.unexpectedStatus 429) = RawFileErr.kindIdx (.unexpectedStatus 500) := by
  refine ⟨rfl, rfl, rfl, rfl, rfl⟩

/-- C8 (amended): only HTTP 403 on the raw-file fetcher and on the GitHub
release fetchers is returned as a dedicated rate-limit error kind,
distinguishable from every generic unexpected-status error; a 429
anywhere, and a 403 on the flathub detail adapter, are reported as the
generic unexpected-status kind. -/
theorem C8_rate_limit_kinds (path : String) (toHTML : String → String) (c : Nat) :
    fetchRawFile (.status 403) path = .error .rateLimited ∧
    FetchBluefinReleases (.status 403) toHTML = .error .rateLimited ∧
    RawFileErr.kindIdx .rateLimited ≠ RawFileErr.kindIdx (.unexpectedStatus c) ∧
    GHErr.kindIdx .rateLimited ≠ GHErr.kindIdx (.unexpectedStatus c) ∧
    FetchAppDetails (.status 403) = .error (.unexpectedStatus 403) ∧
    fetchRawFile (.status 429) path = .error (.unexpectedStatus 429) := by
  refine ⟨rfl, rfl, by simp [RawFileErr.kindIdx], by simp [GHErr.kindIdx], rfl, rfl⟩

/-! ## Claim C4 — release cap / uniqueness / ordering invariant -/

/-- C4 (counterexample): the claim that after enrichment every release list
is capped, unique by (version, origin-type) and ordered newest-first is
false already for the flathub conversion feeding the release lists: it
emits the appstream entries as given — an ascending-dated input stays
ascending, a duplicated (version, type) input stays duplicated, and an
11-entry input yields 11 releases (above any cap in the spec's 5–10
range). -/
theorem C4_counterexample :
    ¬ releasesNewestFirst (ConvertFlathubReleases
        (fun s => if s = "2024-01-01" then some 1 else
          if s = "2024-06-01" then some 2 else none) (fun _ => none) 0
        [⟨"1.0", "2024-01-01", ""⟩, ⟨"2.0", "2024-06-01", ""⟩]) ∧
    ¬ uniqueByVersionType (ConvertFlathubReleases
        (fun _ => some 1) (fun _ => none) 0
        [⟨"1.0", "2024-01-01", ""⟩, ⟨"1.0", "2024-01-01", ""⟩]) ∧
    10 < (ConvertFlathubReleases (fun _ => some 1) (fun _ => none) 0
        (List.replicate 11 ⟨"1.0", "2024-01-01", ""⟩)).length := by
  refine ⟨by decide, by decide, by decide⟩

/-- C4 (amended): the flathub conversion applies no cap, no deduplication
and no sort: it emits exactly one release per appstream entry, in input
order, all with the `appstream` origin-type — the cap/uniqueness/ordering
invariant holds only if the upstream appstream data already satisfies it. -/
theorem C4_convert_preserves (pYMD pRFC : String → Option Int) (now : Int)
    (entries : List FlathubReleaseEntry) :
    (ConvertFlathubReleases pYMD pRFC now entries).length = entries.length ∧
    (ConvertFlathubReleases pYMD pRFC now entries).map (·.version)
      = entries.map (·.version) ∧
    ∀ r ∈ ConvertFlathubReleases pYMD pRFC now entries, r.type_ = "appstream" := by
  refine ⟨by simp [ConvertFlathubReleases], ?_, ?_⟩
  · simp [ConvertFlathubReleases, List.map_map]
  · intro r hr
    simp only [ConvertFlathubReleases, List.mem_map] at hr
    obtain ⟨e, _, rfl⟩ := hr
    rfl

/-- C4 witness: the amended theorem evaluated at a concrete entry. -/
theorem C4_convert_preserves_witness :
    ({ version := "1.0", date := 1, title := "Version 1.0",
       type_ := "appstream" } : Release).type_ = "appstream" :=
  (C4_convert_preserves (fun _ => some 1) (fun _ => none) 0
    [⟨"1.0", "2024-01-01", ""⟩]).2.2 _ (by decide)

/-! ## Claim C5 — enrichment merge rule -/

/-- The Go enrichment loop over a copied slice is a map. -/
theorem enrichMozilla_eq_map (ff tb : Except Unit (List Release)) (apps : List App) :
    EnrichWithMozillaReleases ff tb apps = apps.map (fun app =>
      if app.id = "org.mozilla.firefox" then
        match ff with
        | .ok releases => { app with releases := releases }
        | .error _ => app
      else if app.id = "org.mozilla.Thunderbird" then
        match tb with
        | .ok releases => { app with releases := releases }
        | .error _ => app
      else app) := by
  induction apps with
  | nil => rfl
  | cons a t ih => simp only [EnrichWithMozillaReleases, ih, List.map_cons]

/-- C5 (counterexample): the claim that the enrichment prepends the fetched
source-repository releases ahead of the retained existing releases, then
deduplicates and caps, is false: `EnrichWithMozillaReleases` **replaces**
the release list wholesale, so an app with one existing appstream release
gaining two fetched releases ends with only the two fetched ones — the
spec's merge rule would have kept all three (no version is shared here and
the cap is not reached). -/
theorem C5_counterexample :
    (EnrichWithMozillaReleases
        (.ok [⟨"3.0", 30, "Firefox 3.0", "", "", "mozilla-release"⟩,
              ⟨"2.0", 20, "Firefox 2.0", "", "", "mozilla-release"⟩])
        (.error ())
        [{ id := "org.mozilla.firefox",
           releases := [⟨"1.0", 10, "Version 1.0", "", "", "appstream"⟩] }]).map (·.releases)
      = [[⟨"3.0", 30, "Firefox 3.0", "", "", "mozilla-release"⟩,
          ⟨"2.0", 20, "Firefox 2.0", "", "", "mozilla-release"⟩]] ∧
    mergeReleasesSpec 5
        [⟨"3.0", 30, "Firefox 3.0", "", "", "mozilla-release"⟩,
         ⟨"2.0", 20, "Firefox 2.0", "", "", "mozilla-release"⟩]
        [⟨"1.0", 10, "Version 1.0", "", "", "appstream"⟩]
      = [⟨"3.0", 30, "Firefox 3.0", "", "", "mozilla-release"⟩,
         ⟨"2.0", 20, "Firefox 2.0", "", "", "mozilla-release"⟩,
         ⟨"1.0", 10, "Version 1.0", "", "", "appstream"⟩] ∧
    (⟨"1.0", 10, "Version 1.0", "", "", "appstream"⟩ : Release) ∉
      [(⟨"3.0", 30, "Firefox 3.0", "", "", "mozilla-release"⟩ : Release),
       ⟨"2.0", 20, "Firefox 2.0", "", "", "mozilla-release"⟩] := by
  refine ⟨by decide, by decide, by decide⟩

/-- C5 (amended): the Mozilla enrichment replaces the matched package's
release list wholesale with the fetched releases — existing entries are
discarded, and no deduplication or cap is applied; packages other than the
two Mozilla IDs, and packages whose fetch failed, keep their release lists
unchanged. -/
theorem C5_mozilla_replaces (ff tb : Except Unit (List Release)) (apps : List App)
    (app : App) (hmem : app ∈ apps) :
    (app.id ≠ "org.mozilla.firefox" → app.id ≠ "org.mozilla.Thunderbird" →
      app ∈ EnrichWithMozillaReleases ff tb apps) ∧
    (∀ releases, ff = .ok releases → app.id = "org.mozilla.firefox" →
      { app with releases := releases } ∈ EnrichWithMozillaReleases ff tb apps) ∧
    (ff = .error () → app.id = "org.mozilla.firefox" →
      app ∈ EnrichWithMozillaReleases ff tb apps) ∧
    (∀ releases, tb = .ok releases → app.id = "org.mozilla.Thunderbird" →
      { app with releases := releases } ∈ EnrichWithMozillaReleases ff tb apps) := by
  rw [enrichMozilla_eq_map]
  refine ⟨fun h1 h2 => ?_, fun releases hff hid => ?_, fun hff hid => ?_,
    fun releases htb hid => ?_⟩
  · exact List.mem_map.mpr ⟨app, hmem, by simp [h1, h2]⟩
  · exact List.mem_map.mpr ⟨app, hmem, by simp [hid, hff]⟩
  · exact List.mem_map.mpr ⟨app, hmem, by simp [hid, hff]⟩
  · refine List.mem_map.mpr ⟨app, hmem, ?_⟩
    rw [hid, if_neg (by decide), if_pos rfl, htb]

/-- C5 witness: the amended theorem at a concrete Firefox app. -/
theorem C5_mozilla_replaces_witness :
    ({ id := "org.mozilla.firefox",
       releases := [⟨"2.0", 20, "Firefox 2.0", "", "", "mozilla-release"⟩] } : App) ∈
      EnrichWithMozillaReleases
        (.ok [⟨"2.0", 20, "Firefox 2.0", "", "", "mozilla-release"⟩]) (.error ())
        [{ id := "org.mozilla.firefox",
           releases := [⟨"1.0", 10, "Version 1.0", "", "", "appstream"⟩] }] :=
  (C5_mozilla_replaces
    (.ok [⟨"2.0", 20, "Firefox 2.0", "", "", "mozilla-release"⟩]) (.error ())
    [{ id := "org.mozilla.firefox",
       releases := [⟨"1.0", 10, "Version 1.0", "", "", "appstream"⟩] }]
    { id := "org.mozilla.firefox",
      releases := [⟨"1.0", 10, "Version 1.0", "", "", "appstream"⟩] }
    (List.mem_singleton.mpr rfl)).2.1
    [⟨"2.0", 20, "Firefox 2.0", "", "", "mozilla-release"⟩] rfl rfl

/-! ## Claim C6 — discovery failure isolation -/

/-- `FetchFlatpakListWithAppSets` as a flat map over the Brewfiles. -/
theorem fetchFlatpakList_eq_flatMap (raw : String → HttpResp String)
    (order : List (String × String)) :
    FetchFlatpakListWithAppSets raw order = order.flatMap (fun bf =>
      match fetchRawFile (raw bf.1) bf.1 with
      | .error _ => []
      | .ok content =>
        (parseFlatpakBrewfile content).map (fun appID => ⟨appID, bf.2⟩)) := by
  unfold FetchFlatpakListWithAppSets
  have hstep : (fun (acc : List AppSetInfo) (bf : String × String) =>
      match fetchRawFile (raw bf.1) bf.1 with
      | .error _ => acc
      | .ok content =>
        acc ++ (parseFlatpakBrewfile content).map (fun appID => ⟨appID, bf.2⟩))
      = (fun acc bf => acc ++ (match fetchRawFile (raw bf.1) bf.1 with
        | .error _ => []
        | .ok content =>
          (parseFlatpakBrewfile content).map (fun appID => (⟨appID, bf.2⟩ : AppSetInfo)))) := by
    funext acc bf
    cases fetchRawFile (raw bf.1) bf.1 <;> simp
  rw [hstep, foldl_append_eq, List.nil_append]

/-- C6 (counterexample): the claim "a single upstream's discovery error
never aborts the run" is false for the Flathub upstream: a failed
`FetchRecentlyUpdated` makes `FetchAllApps` call `log.Fatalf`, aborting the
entire run (modelled as `.error ()`), regardless of any other configured
source. -/
theorem C6_counterexample :
    FetchAllApps .netErr (fun _ => .netErr) (fun _ => none) (fun _ => none) 0 []
      = .error () := rfl

/-- C6 (amended): Brewfile discovery failures are non-fatal — a failed
Brewfile fetch contributes nothing and every successfully fetched
Brewfile's entries still appear — but a Flathub recently-updated discovery
failure aborts the whole run via `log.Fatalf`. -/
theorem C6_discovery_failures (raw : String → HttpResp String)
    (order : List (String × String)) (bf aset content : String)
    (hmem : (bf, aset) ∈ order)
    (hok : fetchRawFile (raw bf) bf = .ok content) :
    (∀ appID ∈ parseFlatpakBrewfile content,
      (⟨appID, aset⟩ : AppSetInfo) ∈ FetchFlatpakListWithAppSets raw order) ∧
    (∀ (listResp : HttpResp (List FlathubApp)) detailsOf pYMD pRFC (now : Int)
      (sched : List Nat), (FetchRecentlyUpdated listResp).isOk = false →
      FetchAllApps listResp detailsOf pYMD pRFC now sched = .error ()) := by
  constructor
  · intro appID hid
    rw [fetchFlatpakList_eq_flatMap]
    refine List.mem_flatMap.mpr ⟨(bf, aset), hmem, ?_⟩
    rw [hok]
    exact List.mem_map.mpr ⟨appID, hid, rfl⟩
  · intro listResp detailsOf pYMD pRFC now sched hfail
    cases hlist : FetchRecentlyUpdated listResp with
    | error e => simp [FetchAllApps, hlist]
    | ok apps => rw [hlist] at hfail; cases hfail

/-- C6 witness: one Brewfile fetch fails with a 500, the other succeeds;
the surviving Brewfile's app still appears, while a Flathub discovery
network failure aborts. -/
theorem C6_discovery_failures_witness :
    (⟨"org.gnome.Calculator", "dx"⟩ : AppSetInfo) ∈
      FetchFlatpakListWithAppSets
        (fun p =>
          if p = "system_files/bluefin/usr/share/ublue-os/homebrew/system-dx-flatpaks.Brewfile"
          then .ok "flatpak \"org.gnome.Calculator\"" else .status 500)
        flatpakBrewfiles ∧
    FetchAllApps .netErr (fun _ => .netErr) (fun _ => none) (fun _ => none) 0 [0]
      = .error () := by
  have h := C6_discovery_failures
    (fun p =>
      if p = "system_files/bluefin/usr/share/ublue-os/homebrew/system-dx-flatpaks.Brewfile"
      then .ok "flatpak \"org.gnome.Calculator\"" else .status 500)
    flatpakBrewfiles
    "system_files/bluefin/usr/share/ublue-os/homebrew/system-dx-flatpaks.Brewfile"
    "dx" "flatpak \"org.gnome.Calculator\"" (by decide) rfl
  exact ⟨h.1 "org.gnome.Calculator" (by decide),
    h.2 .netErr (fun _ => .netErr) (fun _ => none) (fun _ => none) 0 [0] (by decide)⟩

/-! ## Claim C7 — 404 as a non-fatal empty result -/

/-- C7 (counterexample): the claim "every source adapter treats an HTTP 404
response as a non-fatal empty result rather than a propagated error" is
false for the raw-file adapter: `fetchRawFile` returns a `notFound` error
on a 404, not an empty result with a nil error. -/
theorem C7_counterexample :
    fetchRawFile (.status 404)
        "system_files/shared/usr/share/ublue-os/homebrew/cli.Brewfile"
      = .error (.notFound "system_files/shared/usr/share/ublue-os/homebrew/cli.Brewfile") ∧
    (fetchRawFile (.status 404)
        "system_files/shared/usr/share/ublue-os/homebrew/cli.Brewfile").isOk = false := by
  refine ⟨rfl, rfl⟩

/-- C7 (amended): the flathub detail adapter, the Homebrew formula adapter
and the tap directory adapter all treat a 404 as a nil-error empty (or
fallback) result, but the raw-file adapter returns a dedicated `notFound`
**error** on 404 — its callers then skip that file and continue with the
remaining Brewfiles. -/
theorem C7_not_found_handling (path name : String) (now : Int)
    (api : String → HttpResp HomebrewFormula)
    (dirResp : String → String → HttpResp (List GitHubContentItem))
    (fileResp : String → String → String → HttpResp String)
    (raw : String → HttpResp String)
    (owner repo dir pkgType content : String) (experimental : Bool)
    (hname : goContains name "/" = false)
    (hapi : api name = .status 404)
    (hdir : dirResp repo dir = .status 404)
    (hraw1 : raw "system_files/bluefin/usr/share/ublue-os/homebrew/system-flatpaks.Brewfile"
      = .status 404)
    (hraw2 : raw "system_files/bluefin/usr/share/ublue-os/homebrew/system-dx-flatpaks.Brewfile"
      = .ok content) :
    FetchAppDetails (.status 404) = .ok none ∧
    fetchHomebrewPackageMetadata api now name
      = .ok (some (createMinimalHomebrewApp now name)) ∧
    fetchTapDirectory dirResp fileResp now owner repo dir pkgType experimental = .ok [] ∧
    fetchRawFile (.status 404) path = .error (.notFound path) ∧
    FetchFlatpakListWithAppSets raw flatpakBrewfiles
      = (parseFlatpakBrewfile content).map (fun appID => ⟨appID, "dx"⟩) := by
    refine ⟨rfl, ?_, ?_, rfl, ?_⟩
    · simp [fetchHomebrewPackageMetadata, hname, hapi]
    · simp [fetchTapDirectory, hdir]
    · rw [fetchFlatpakList_eq_flatMap]
      simp [flatpakBrewfiles, hraw1, hraw2, fetchRawFile]

/-- C7 witness: the amended theorem at concrete adapters. -/
theorem C7_not_found_handling_witness :
    fetchHomebrewPackageMetadata (fun _ => .status 404) 0 "bat"
      = .ok (some (createMinimalHomebrewApp 0 "bat")) ∧
    fetchTapDirectory (fun _ _ => .status 404) (fun _ _ _ => .ok "") 0
      "ublue-os" "homebrew-tap" "Formula" "formula" false = .ok [] := by
  have h := C7_not_found_handling "p" "bat" 0 (fun _ => .status 404)
    (fun _ _ => .status 404) (fun _ _ _ => .ok "")
    (fun p =>
      if p = "system_files/bluefin/usr/share/ublue-os/homebrew/system-dx-flatpaks.Brewfile"
      then .ok "" else .status 404)
    "ublue-os" "homebrew-tap" "Formula" "formula" "" false
    (by decide) rfl rfl (by decide) (by decide)
  exact ⟨h.2.1, h.2.2.1⟩

/-! ## Claim C2 — pipeline determinism -/

/-- C2 (counterexample): the claim that two runs against identical upstream
responses produce byte-identical output is false on both counts cited: the
goroutine fan-in of `FetchAllApps` appends results in completion order, so
two valid completion orders yield differently ordered app lists; and
`ExtractSourceRepo`, when the URL map has neither `homepage` nor
`bugtracker`, picks the first URL in Go map iteration order, so two
iteration orders of the same map select different source repositories. -/
theorem C2_counterexample :
    (FetchAllApps (.ok [⟨"app.a", "", "", "", "", "", [], "", ""⟩,
        ⟨"app.b", "", "", "", "", "", [], "", ""⟩])
      (fun _ => .status 404) (fun _ => none) (fun _ => none) 0 [0, 1]).toOption
      = some ⟨[{ id := "app.a", flathubURL := "https://flathub.org/apps/app.a" },
               { id := "app.b", flathubURL := "https://flathub.org/apps/app.b" }]⟩ ∧
    (FetchAllApps (.ok [⟨"app.a", "", "", "", "", "", [], "", ""⟩,
        ⟨"app.b", "", "", "", "", "", [], "", ""⟩])
      (fun _ => .status 404) (fun _ => none) (fun _ => none) 0 [1, 0]).toOption
      = some ⟨[{ id := "app.b", flathubURL := "https://flathub.org/apps/app.b" },
               { id := "app.a", flathubURL := "https://flathub.org/apps/app.a" }]⟩ ∧
    ([0, 1] : List Nat).Perm (List.range 2) ∧
    ([1, 0] : List Nat).Perm (List.range 2) ∧
    (⟨[{ id := "app.a", flathubURL := "https://flathub.org/apps/app.a" },
       { id := "app.b", flathubURL := "https://flathub.org/apps/app.b" }]⟩ : FetchResults)
      ≠ ⟨[{ id := "app.b", flathubURL := "https://flathub.org/apps/app.b" },
          { id := "app.a", flathubURL := "https://flathub.org/apps/app.a" }]⟩ ∧
    ExtractSourceRepo (some { urls := some (
        [("donation", "https://a.example"), ("translate", "https://b.example")]) })
      = some { type_ := "other", url := "https://a.example" } ∧
    ExtractSourceRepo (some { urls := some (
        [("translate", "https://b.example"), ("donation", "https://a.example")]) })
      = some { type_ := "other", url := "https://b.example" } ∧
    ([("donation", "https://a.example"), ("translate", "https://b.example")] :
        List (String × String)).Perm
      [("translate", "https://b.example"), ("donation", "https://a.example")] ∧
    (some { type_ := "other", url := "https://a.example" } : Option SourceRepo)
      ≠ some { type_ := "other", url := "https://b.example" } := by
  refine ⟨rfl, rfl, by decide, by decide, by decide, by decide, by decide, by decide, by decide⟩

/-- C2 (amended): the pipeline is deterministic only up to ordering and URL
choice: two runs over identical upstream responses produce the same
*multiset* of apps (any two completion orders that are permutations of each
other yield permuted app lists), and `ExtractSourceRepo` is stable across
map iteration orders whenever the URL map contains a `homepage` entry. -/
theorem C2_determinism_up_to_order
    (listResp : HttpResp (List FlathubApp))
    (detailsOf : String → HttpResp FlathubAppDetails)
    (pYMD pRFC : String → Option Int) (now : Int) (s1 s2 : List Nat)
    (res1 res2 : FetchResults)
    (hperm : s1.Perm s2)
    (h1 : FetchAllApps listResp detailsOf pYMD pRFC now s1 = .ok res1)
    (h2 : FetchAllApps listResp detailsOf pYMD pRFC now s2 = .ok res2) :
    res1.apps.Perm res2.apps ∧
    ∀ (d : FlathubAppDetails) (urls1 urls2 : List (String × String)),
      d.urls = some urls1 → urls1.Perm urls2 → (urls1.map Prod.fst).Nodup →
      (lookupStr urls1 "homepage").isSome →
      ExtractSourceRepo (some d)
        = ExtractSourceRepo (some { d with urls := some urls2 }) := by
  constructor
  · cases hlist : FetchRecentlyUpdated listResp with
    | error e => rw [FetchAllApps, hlist] at h1; cases h1
    | ok flathubApps =>
      rw [FetchAllApps, hlist] at h1 h2
      cases h1
      cases h2
      exact completeInOrder_perm _ hperm
  · intro d urls1 urls2 hd hperm' hnd hhome
    obtain ⟨h, hh⟩ := Option.isSome_iff_exists.mp hhome
    have hfind : urls1.find? (fun p => p.1 = "homepage")
        = urls2.find? (fun p => p.1 = "homepage") := find_key_perm hperm' hnd _
    have hh2 : lookupStr urls2 "homepage" = some h := by
      rw [lookupStr, ← hfind]; exact hh
    simp only [ExtractSourceRepo, hd, hh, hh2]

/-- C2 witness: the amended theorem at a concrete two-app feed and a
concrete homepage-bearing URL map. -/
theorem C2_determinism_witness :
    (completeInOrder ([⟨"app.a", "", "", "", "", "", [], "", ""⟩,
        ⟨"app.b", "", "", "", "", "", [], "", ""⟩].map
        (enrichApp (fun _ => .status 404) (fun _ => none) (fun _ => none) 0)) [0, 1]).Perm
      (completeInOrder ([⟨"app.a", "", "", "", "", "", [], "", ""⟩,
        ⟨"app.b", "", "", "", "", "", [], "", ""⟩].map
        (enrichApp (fun _ => .status 404) (fun _ => none) (fun _ => none) 0)) [1, 0]) ∧
    ExtractSourceRepo (some { urls := some (
        [("homepage", "https://h.example"), ("donation", "https://a.example")]) })
      = ExtractSourceRepo (some { urls := some (
        [("donation", "https://a.example"), ("homepage", "https://h.example")]) }) := by
  have h := C2_determinism_up_to_order
    (.ok [⟨"app.a", "", "", "", "", "", [], "", ""⟩,
          ⟨"app.b", "", "", "", "", "", [], "", ""⟩])
    (fun _ => .status 404) (fun _ => none) (fun _ => none) 0 [0, 1] [1, 0] _ _
    (by decide) rfl rfl
  exact ⟨h.1, h.2 _ [("homepage", "https://h.example"), ("donation", "https://a.example")]
    [("donation", "https://a.example"), ("homepage", "https://h.example")]
    rfl (by decide) (by decide) (by decide)⟩

/-! ## Claim C3 — identifier uniqueness / merge-by-identifier -/

/-- C3 (counterexample): the claim that an identifier yielded by more than
one discovery source appears exactly once in the emitted collection is
false: the pipeline driver only concatenates per-source slices, and the
Brewfile Homebrew source (a custom-tap package `ublue-os/tap/bluefin-cli`)
and the ublue-os tap source (formula file `bluefin-cli.rb` of
`ublue-os/homebrew-tap`) both emit the identifier
`homebrew-ublue-os-tap-bluefin-cli`, which then appears twice. -/
theorem C3_counterexample :
    (FetchHomebrewPackages
        (fun p => if p = "system_files/shared/usr/share/ublue-os/homebrew/cli.Brewfile"
          then .ok "brew \"ublue-os/tap/bluefin-cli\"" else .status 404)
        (fun _ => .status 500) 0 [0]).countP
      (fun a => a.id == "homebrew-ublue-os-tap-bluefin-cli") = 1 ∧
    (FetchUblueOSTapPackages
        (fun repo dir => if repo = "homebrew-tap" && dir = "Formula"
          then .ok [⟨"bluefin-cli.rb", "", "", ""⟩] else .status 404)
        (fun _ _ _ => .ok "desc \"Bluefin CLI\"") 0 [0, 1, 2, 3]).countP
      (fun a => a.id == "homebrew-ublue-os-tap-bluefin-cli") = 1 ∧
    (mainAllApps [] []
        (FetchHomebrewPackages
          (fun p => if p = "system_files/shared/usr/share/ublue-os/homebrew/cli.Brewfile"
            then .ok "brew \"ublue-os/tap/bluefin-cli\"" else .status 404)
          (fun _ => .status 500) 0 [0])
        (FetchUblueOSTapPackages
          (fun repo dir => if repo = "homebrew-tap" && dir = "Formula"
            then .ok [⟨"bluefin-cli.rb", "", "", ""⟩] else .status 404)
          (fun _ _ _ => .ok "desc \"Bluefin CLI\"") 0 [0, 1, 2, 3])).countP
      (fun a => a.id == "homebrew-ublue-os-tap-bluefin-cli") = 2 := by
  refine ⟨by decide, by decide, by decide⟩

/-- C3 (amended): no merge-by-identifier exists: the emitted collection is
the concatenation of the per-source slices, so an identifier occurs in the
output exactly as many times as the sources yield it in total — an
identifier yielded by several sources is duplicated, not merged. -/
theorem C3_no_merge (flathubApps osApps homebrewApps tapApps : List App)
    (id : String) :
    (mainAllApps flathubApps osApps homebrewApps tapApps).countP (fun a => a.id == id)
      = flathubApps.countP (fun a => a.id == id) + osApps.countP (fun a => a.id == id)
        + homebrewApps.countP (fun a => a.id == id)
        + tapApps.countP (fun a => a.id == id) := by
  simp [mainAllApps, List.countP_append]
  omega

/-! ## Claim C9 — draft/prerelease filtering with rendered bodies -/

/-- The conversion loop of `FetchBluefinReleases` as a flat map. -/
theorem convertBluefin_eq_flatMap (toHTML : String → String)
    (githubReleases : List GitHubRelease) :
    convertBluefinReleases toHTML githubReleases = githubReleases.flatMap (fun g =>
      if g.draft || g.prerelease then []
      else [{ version := g.tagName, date := g.publishedAt, title := g.name,
              description := parseReleaseNotes toHTML g.body, url := g.htmlURL,
              type_ := "bluefin-os-release" }]) := by
  unfold convertBluefinReleases
  have hstep : (fun (releases : List Release) (g : GitHubRelease) =>
      if g.draft || g.prerelease then releases
      else releases ++
        [{ version := g.tagName, date := g.publishedAt, title := g.name,
           description := parseReleaseNotes toHTML g.body, url := g.htmlURL,
           type_ := "bluefin-os-release" }])
      = (fun releases g => releases ++ (if g.draft || g.prerelease then []
        else [{ version := g.tagName, date := g.publishedAt, title := g.name,
                description := parseReleaseNotes toHTML g.body, url := g.htmlURL,
                type_ := "bluefin-os-release" }])) := by
    funext releases g
    cases g.draft || g.prerelease <;> simp
  rw [hstep, foldl_append_eq, List.nil_append]

/-- C9: the git-forge release enrichment excludes every draft or prerelease
entry, and every emitted release comes from a non-draft, non-prerelease
fetched entry with its body rendered by the (injected) markup-to-HTML
converter; conversely every kept entry is emitted. -/
theorem C9_draft_prerelease_filtered (githubReleases : List GitHubRelease)
    (toHTML : String → String) (rels : List Release)
    (hrun : FetchBluefinReleases (.ok githubReleases) toHTML = .ok rels) :
    (∀ r ∈ rels, ∃ g ∈ githubReleases, g.draft = false ∧ g.prerelease = false ∧
      r.version = g.tagName ∧ r.date = g.publishedAt ∧ r.title = g.name ∧
      r.description = parseReleaseNotes toHTML g.body ∧ r.url = g.htmlURL ∧
      r.type_ = "bluefin-os-release") ∧
    (∀ g ∈ githubReleases, g.draft = false → g.prerelease = false →
      ({ version := g.tagName, date := g.publishedAt, title := g.name,
         description := parseReleaseNotes toHTML g.body, url := g.htmlURL,
         type_ := "bluefin-os-release" } : Release) ∈ rels) := by
  have hrels : rels = convertBluefinReleases toHTML githubReleases := by
    simp only [FetchBluefinReleases, fetchGitHubReleaseList] at hrun
    exact (Except.ok.inj hrun).symm
  subst hrels
  rw [convertBluefin_eq_flatMap]
  constructor
  · intro r hr
    obtain ⟨g, hg, hrg⟩ := List.mem_flatMap.mp hr
    refine ⟨g, hg, ?_⟩
    cases hd : g.draft <;> cases hp : g.prerelease <;> rw [hd, hp] at hrg <;>
      simp at hrg
    rw [hrg]
    exact ⟨rfl, rfl, rfl, rfl, rfl, rfl, rfl, rfl⟩
  · intro g hg hd hp
    refine List.mem_flatMap.mpr ⟨g, hg, ?_⟩
    rw [hd, hp]
    simp

/-- C9 witness: one kept and one draft release; the kept one's conversion
is in the output. -/
theorem C9_draft_prerelease_filtered_witness :
    ({ version := "stable-20260203", date := 100, title := "Stable",
       description := "notes", url := "https://example/rel",
       type_ := "bluefin-os-release" } : Release) ∈
      convertBluefinReleases (fun b => b)
        [{ tagName := "stable-20260203", name := "Stable", body := "notes",
           htmlURL := "https://example/rel", publishedAt := 100 },
         { tagName := "stable-20260301", name := "Draft", body := "d",
           htmlURL := "", publishedAt := 200, draft := true }] :=
  (C9_draft_prerelease_filtered
    [{ tagName := "stable-20260203", name := "Stable", body := "notes",
       htmlURL := "https://example/rel", publishedAt := 100 },
     { tagName := "stable-20260301", name := "Draft", body := "d",
       htmlURL := "", publishedAt := 200, draft := true }]
    (fun b => b) _ rfl).2
    { tagName := "stable-20260203", name := "Stable", body := "notes",
      htmlURL := "https://example/rel", publishedAt := 100 }
    (List.mem_cons_self _ _) rfl rfl

/-! ## Claim C10 — one App per stream, built from the latest release -/

/-- Invariant of the `latestByStream` selection loop after processing the
releases in `processed`: keys are unique; every stored pair holds a kept
(non-draft, non-prerelease) processed release filed under its own stream;
every kept processed release's stream has an entry; and every stored
release is latest (`≥` on `PublishedAt`) among the kept processed releases
of its stream. -/
def latestInv (processed : List GitHubRelease)
    (m : List (String × GitHubRelease)) : Prop :=
  (m.map Prod.fst).Nodup ∧
  (∀ p ∈ m, p.2.draft = false ∧ p.2.prerelease = false ∧
    (parseOSInfo p.2).stream = p.1 ∧ p.2 ∈ processed) ∧
  (∀ g ∈ processed, g.draft = false → g.prerelease = false →
    ∃ p ∈ m, p.1 = (parseOSInfo g).stream) ∧
  (∀ p ∈ m, ∀ g ∈ processed, g.draft = false → g.prerelease = false →
    (parseOSInfo g).stream = p.1 → g.publishedAt ≤ p.2.publishedAt)

/-- One step of the selection loop preserves the invariant. -/
theorem latestStep_inv {processed : List GitHubRelease}
    {m : List (String × GitHubRelease)} (g : GitHubRelease)
    (h : latestInv processed m) :
    latestInv (processed ++ [g]) (latestStep m g) := by
  obtain ⟨hnd, hmem, hcov, hmax⟩ := h
  cases hdp : (g.draft || g.prerelease) with
  | true =>
    have hm : latestStep m g = m := by simp [latestStep, hdp]
    rw [hm]
    refine ⟨hnd, ?_, ?_, ?_⟩
    · intro p hp
      obtain ⟨a, b, c, d⟩ := hmem p hp
      exact ⟨a, b, c, List.mem_append_left _ d⟩
    · intro g' hg' hd hp
      rcases List.mem_append.mp hg' with h' | h'
      · exact hcov g' h' hd hp
      · rw [List.mem_singleton] at h'
        subst h'
        rw [hd, hp] at hdp
        cases hdp
    · intro p hp g' hg' hd hpr hs
      rcases List.mem_append.mp hg' with h' | h'
      · exact hmax p hp g' h' hd hpr hs
      · rw [List.mem_singleton] at h'
        subst h'
        rw [hd, hpr] at hdp
        cases hdp
  | false =>
    have hdf : g.draft = false := by
      cases hx : g.draft
      · rfl
      · rw [hx] at hdp; cases hdp
    have hpf : g.prerelease = false := by
      cases hx : g.prerelease
      · rfl
      · rw [hx, Bool.or_true] at hdp; cases hdp
    cases hlook : lookupRel m ((parseOSInfo g).stream) with
    | none =>
      have hm : latestStep m g = m ++ [((parseOSInfo g).stream, g)] := by
        simp [latestStep, hdp, hlook]
      have hfnone : m.find? (fun p => p.1 = (parseOSInfo g).stream) = none := by
        rw [lookupRel] at hlook
        exact Option.map_eq_none.mp hlook
      have hno : ∀ p ∈ m, p.1 ≠ (parseOSInfo g).stream := by
        rw [List.find?_eq_none] at hfnone
        intro p hp
        simpa using hfnone p hp
      rw [hm]
      refine ⟨?_, ?_, ?_, ?_⟩
      · rw [List.map_append]
        rw [List.nodup_append]
        refine ⟨hnd, List.nodup_singleton _, ?_⟩
        intro k hk hks
        rw [List.map_singleton, List.mem_singleton] at hks
        obtain ⟨p, hp, hpk⟩ := List.mem_map.mp hk
        exact hno p hp (hpk.trans hks)
      · intro p hp
        rcases List.mem_append.mp hp with h' | h'
        · obtain ⟨a, b, c, d⟩ := hmem p h'
          exact ⟨a, b, c, List.mem_append_left _ d⟩
        · rw [List.mem_singleton] at h'
          subst h'
          exact ⟨hdf, hpf, rfl, List.mem_append_right _ (List.mem_singleton.mpr rfl)⟩
      · intro g' hg' hd hpr
        rcases List.mem_append.mp hg' with h' | h'
        · obtain ⟨p, hp, hps⟩ := hcov g' h' hd hpr
          exact ⟨p, List.mem_append_left _ hp, hps⟩
        · rw [List.mem_singleton] at h'
          subst h'
          exact ⟨((parseOSInfo g').stream, g'),
            List.mem_append_right _ (List.mem_singleton.mpr rfl), rfl⟩
      · intro p hp g' hg' hd hpr hsg
        rcases List.mem_append.mp hp with hpm | hps
        · rcases List.mem_append.mp hg' with h' | h'
          · exact hmax p hpm g' h' hd hpr hsg
          · rw [List.mem_singleton] at h'
            subst h'
            exact absurd hsg.symm (hno p hpm)
        · rw [List.mem_singleton] at hps
          subst hps
          rcases List.mem_append.mp hg' with h' | h'
          · obtain ⟨p', hp', hps'⟩ := hcov g' h' hd hpr
            rw [hsg] at hps'
            exact absurd hps' (hno p' hp')
          · rw [List.mem_singleton] at h'
            subst h'
            exact le_refl _
    | some ex =>
      obtain ⟨q, hq, hq2⟩ : ∃ q, m.find? (fun p => p.1 = (parseOSInfo g).stream) = some q
          ∧ q.2 = ex := by
        rw [lookupRel] at hlook
        obtain ⟨q, hq1, hq2⟩ := Option.map_eq_some'.mp hlook
        exact ⟨q, hq1, hq2⟩
      have hqm : q ∈ m := List.mem_of_find?_eq_some hq
      have hqs : q.1 = (parseOSInfo g).stream := by simpa using List.find?_some hq
      cases hgt : decide (g.publishedAt > ex.publishedAt) with
      | true =>
        have hgt' : g.publishedAt > ex.publishedAt := of_decide_eq_true hgt
        have hm : latestStep m g = updateRel m ((parseOSInfo g).stream) g := by
          simp [latestStep, hdp, hlook, hgt']
        rw [hm]
        have hkeys : (updateRel m ((parseOSInfo g).stream) g).map Prod.fst
            = m.map Prod.fst := by
          rw [updateRel, List.map_map]
          apply List.map_congr_left
          intro p _
          by_cases hh : p.1 = (parseOSInfo g).stream
          · simp [hh]
          · simp [hh]
        refine ⟨by rw [hkeys]; exact hnd, ?_, ?_, ?_⟩
        · intro p hp
          rw [updateRel] at hp
          obtain ⟨p₀, hp₀, hback⟩ := List.mem_map.mp hp
          by_cases hp₀s : p₀.1 = (parseOSInfo g).stream
          · rw [if_pos hp₀s] at hback
            subst hback
            exact ⟨hdf, hpf, rfl, List.mem_append_right _ (List.mem_singleton.mpr rfl)⟩
          · rw [if_neg hp₀s] at hback
            subst hback
            obtain ⟨a, b, c, d⟩ := hmem p₀ hp₀
            exact ⟨a, b, c, List.mem_append_left _ d⟩
        · intro g' hg' hd hpr
          rcases List.mem_append.mp hg' with h' | h'
          · obtain ⟨p', hp', hps'⟩ := hcov g' h' hd hpr
            refine ⟨if p'.1 = (parseOSInfo g).stream then ((parseOSInfo g).stream, g)
              else p', ?_, ?_⟩
            · rw [updateRel]
              exact List.mem_map_of_mem _ hp'
            · by_cases hh : p'.1 = (parseOSInfo g).stream
              · rw [if_pos hh]
                rw [← hh]
                exact hps'
              · rw [if_neg hh]
                exact hps'
          · rw [List.mem_singleton] at h'
            subst h'
            refine ⟨((parseOSInfo g').stream, g'), ?_, rfl⟩
            rw [updateRel]
            have hmm := List.mem_map_of_mem
              (fun p => if p.1 = (parseOSInfo g').stream
                then ((parseOSInfo g').stream, g') else p) hqm
            simpa [hqs] using hmm
        · intro p hp g' hg' hd hpr hsg
          rw [updateRel] at hp
          obtain ⟨p₀, hp₀, hback⟩ := List.mem_map.mp hp
          by_cases hp₀s : p₀.1 = (parseOSInfo g).stream
          · rw [if_pos hp₀s] at hback
            subst hback
            rcases List.mem_append.mp hg' with h' | h'
            · have hle := hmax q hqm g' h' hd hpr (by rw [hqs]; exact hsg)
              rw [hq2] at hle
              exact le_trans hle (le_of_lt hgt')
            · rw [List.mem_singleton] at h'
              subst h'
              exact le_refl _
          · rw [if_neg hp₀s] at hback
            subst hback
            rcases List.mem_append.mp hg' with h' | h'
            · exact hmax p₀ hp₀ g' h' hd hpr hsg
            · rw [List.mem_singleton] at h'
              subst h'
              exact absurd hsg.symm hp₀s
      | false =>
        have hle : g.publishedAt ≤ ex.publishedAt :=
          not_lt.mp (of_decide_eq_false hgt)
        have hm : latestStep m g = m := by
          simp [latestStep, hdp, hlook, of_decide_eq_false hgt]
        rw [hm]
        refine ⟨hnd, ?_, ?_, ?_⟩
        · intro p hp
          obtain ⟨a, b, c, d⟩ := hmem p hp
          exact ⟨a, b, c, List.mem_append_left _ d⟩
        · intro g' hg' hd hpr
          rcases List.mem_append.mp hg' with h' | h'
          · exact hcov g' h' hd hpr
          · rw [List.mem_singleton] at h'
            subst h'
            exact ⟨q, hqm, hqs⟩
        · intro p hp g' hg' hd hpr hsg
          rcases List.mem_append.mp hg' with h' | h'
          · exact hmax p hp g' h' hd hpr hsg
          · rw [List.mem_singleton] at h'
            subst h'
            have hps : p.1 = (parseOSInfo g').stream := hsg.symm
            have hpq : p = q := key_unique hnd hp hqm (by rw [hps, hqs])
            rw [hpq, hq2]
            exact hle

/-- The invariant holds for the whole selection loop. -/
theorem latestFold_inv :
    ∀ (l processed : List GitHubRelease) (m : List (String × GitHubRelease)),
      latestInv processed m → latestInv (processed ++ l) (l.foldl latestStep m) := by
  intro l
  induction l with
  | nil =>
    intro processed m h
    simpa using h
  | cons g t ih =>
    intro processed m h
    have h2 := latestStep_inv g h
    have h3 := ih (processed ++ [g]) (latestStep m g) h2
    rw [List.append_assoc] at h3
    simpa using h3

/-- The invariant for `latestByStream`. -/
theorem latestByStream_inv (githubReleases : List GitHubRelease) :
    latestInv githubReleases (latestByStream githubReleases) := by
  have h0 : latestInv [] [] := by
    refine ⟨List.nodup_nil, ?_, ?_, ?_⟩ <;> intro p hp <;> cases hp
  have h := latestFold_inv githubReleases [] [] h0
  rw [List.nil_append] at h
  exact h

/-- Appending on the left is injective for strings. -/
theorem str_append_left_cancel {pre a b : String} (h : pre ++ a = pre ++ b) :
    a = b := by
  have h2 := congrArg String.data h
  simp only [String.data_append] at h2
  exact String.ext (List.append_cancel_left h2)

/-- Boolean form: a common prefix does not affect string equality tests. -/
theorem str_append_beq (pre a b : String) : (pre ++ a == pre ++ b) = (a == b) := by
  cases hab : a == b with
  | false =>
    rw [beq_eq_false_iff_ne]
    intro h
    exact (beq_eq_false_iff_ne.mp hab) (str_append_left_cancel h)
  | true =>
    have : a = b := eq_of_beq hab
    subst this
    simp

/-- A successful map lookup pairs the key with the stored value. -/
theorem lookupRel_mem {m : List (String × GitHubRelease)} {s : String}
    {g : GitHubRelease} (h : lookupRel m s = some g) : (s, g) ∈ m := by
  rw [lookupRel] at h
  obtain ⟨q, hq, hq2⟩ := Option.map_eq_some'.mp h
  have hqs : q.1 = s := by simpa using List.find?_some hq
  have hqm := List.mem_of_find?_eq_some hq
  obtain ⟨q1, q2⟩ := q
  simp only at hqs hq2
  subst hqs
  subst hq2
  exact hqm

/-- A lookup succeeds exactly when the key occurs in the map. -/
theorem lookupRel_isSome {m : List (String × GitHubRelease)} {s : String} :
    (lookupRel m s).isSome ↔ s ∈ m.map Prod.fst := by
  rw [lookupRel, Option.isSome_map']
  rw [List.find?_isSome]
  constructor
  · intro ⟨x, hx, hxs⟩
    exact List.mem_map.mpr ⟨x, hx, by simpa using hxs⟩
  · intro h
    obtain ⟨x, hx, hxs⟩ := List.mem_map.mp h
    exact ⟨x, hx, by simpa using hxs⟩

/-- Counting elements equal to `s` that additionally satisfy a predicate
depending only on the element. -/
theorem countP_key_select (q : String → Bool) (s : String) (order : List String) :
    order.countP (fun x => q x && (x == s))
      = if q s then order.countP (· == s) else 0 := by
  cases hq : q s with
  | false =>
    rw [if_neg (by simp [hq])]
    apply List.countP_eq_zero.mpr
    intro x hx
    cases hxs : x == s with
    | false => simp [hxs]
    | true =>
      have : x = s := eq_of_beq hxs
      subst this
      simp [hq]
  | true =>
    rw [if_pos (by simp [hq])]
    have hfun : (fun x => q x && (x == s)) = (fun x => x == s) := by
      funext x
      cases hxs : x == s with
      | false => simp [hxs]
      | true =>
        have : x = s := eq_of_beq hxs
        subst this
        simp [hq]
    rw [hfun]

/-- Counting the per-stream apps emitted by the final loop of
`FetchBluefinOSApps`: each emitted app's ID is `bluefin-os-` + its map key,
so apps matching stream `s` are counted by the order entries equal to `s`
whose lookup succeeds. -/
theorem countP_build (now : Int) (fmtRFC : Int → String) (toHTML : String → String)
    (m : List (String × GitHubRelease))
    (hkey : ∀ p ∈ m, (parseOSInfo p.2).stream = p.1) (s : String) :
    ∀ order : List String,
      ((order.filterMap (fun sk =>
        (lookupRel m sk).map (buildBluefinOSApp now fmtRFC toHTML))).countP
          (fun a => a.id == "bluefin-os-" ++ s))
        = order.countP (fun sk => (lookupRel m sk).isSome && (sk == s)) := by
  intro order
  induction order with
  | nil => rfl
  | cons a t ih =>
    rw [List.filterMap_cons]
    cases hl : lookupRel m a with
    | none =>
      rw [List.countP_cons]
      simp [hl, ih]
    | some g =>
      have hsg : (parseOSInfo g).stream = a := hkey (a, g) (lookupRel_mem hl)
      simp only [Option.map_some']
      rw [List.countP_cons, List.countP_cons, ih]
      congr 1
      have hid : (buildBluefinOSApp now fmtRFC toHTML g).id = "bluefin-os-" ++ a := by
        simp [buildBluefinOSApp, hsg]
      rw [hid, str_append_beq, hl]
      simp

/-- C10: `FetchBluefinOSApps` emits exactly one App per stream that has a
non-draft, non-prerelease release (ID `bluefin-os-` + stream), no App for
any other stream, and each emitted App is built from a kept fetched release
whose publication date is maximal (`≥` all) among the kept releases of its
stream. -/
theorem C10_one_app_per_stream (githubReleases : List GitHubRelease) (now : Int)
    (fmtRFC : Int → String) (toHTML : String → String) (streamOrder : List String)
    (apps : List App)
    (hperm : streamOrder.Perm ((latestByStream githubReleases).map Prod.fst))
    (hrun : FetchBluefinOSApps (.ok githubReleases) now fmtRFC toHTML streamOrder
      = .ok apps) :
    (∀ s, (∃ g ∈ githubReleases, g.draft = false ∧ g.prerelease = false ∧
        (parseOSInfo g).stream = s) →
      apps.countP (fun a => a.id == "bluefin-os-" ++ s) = 1) ∧
    (∀ s, (∀ g ∈ githubReleases, g.draft = false → g.prerelease = false →
        (parseOSInfo g).stream ≠ s) →
      apps.countP (fun a => a.id == "bluefin-os-" ++ s) = 0) ∧
    (∀ a ∈ apps, ∃ g ∈ githubReleases, g.draft = false ∧ g.prerelease = false ∧
      a = buildBluefinOSApp now fmtRFC toHTML g ∧
      ∀ g' ∈ githubReleases, g'.draft = false → g'.prerelease = false →
        (parseOSInfo g').stream = (parseOSInfo g).stream →
        g'.publishedAt ≤ g.publishedAt) := by
  obtain ⟨hnd, hmem, hcov, hmax⟩ := latestByStream_inv githubReleases
  have happ : apps = streamOrder.filterMap (fun sk =>
      (lookupRel (latestByStream githubReleases) sk).map
        (buildBluefinOSApp now fmtRFC toHTML)) := by
    simp only [FetchBluefinOSApps, fetchGitHubReleaseList] at hrun
    exact (Except.ok.inj hrun).symm
  subst happ
  have hkey : ∀ p ∈ latestByStream githubReleases, (parseOSInfo p.2).stream = p.1 :=
    fun p hp => (hmem p hp).2.2.1
  refine ⟨?_, ?_, ?_⟩
  · intro s hex
    obtain ⟨g, hg, hd, hpr, hs⟩ := hex
    rw [countP_build now fmtRFC toHTML _ hkey s streamOrder, countP_key_select]
    obtain ⟨p, hp, hps⟩ := hcov g hg hd hpr
    rw [hs] at hps
    have hmems : s ∈ (latestByStream githubReleases).map Prod.fst :=
      List.mem_map.mpr ⟨p, hp, hps⟩
    have hq : (lookupRel (latestByStream githubReleases) s).isSome :=
      lookupRel_isSome.mpr hmems
    rw [if_pos hq, hperm.countP_eq]
    exact List.count_eq_one_of_mem hnd hmems
  · intro s hnone
    rw [countP_build now fmtRFC toHTML _ hkey s streamOrder, countP_key_select]
    have hq : ¬ ((lookupRel (latestByStream githubReleases) s).isSome = true) := by
      intro hq
      obtain ⟨p, hp, hps⟩ := List.mem_map.mp (lookupRel_isSome.mp hq)
      obtain ⟨hd, hpr, hst, hin⟩ := hmem p hp
      exact hnone p.2 hin hd hpr (by rw [hst, hps])
    rw [if_neg hq]
  · intro a ha
    obtain ⟨sk, hsk, hla⟩ := List.mem_filterMap.mp ha
    obtain ⟨g, hlg, hbuild⟩ := Option.map_eq_some'.mp hla
    have hpm : (sk, g) ∈ latestByStream githubReleases := lookupRel_mem hlg
    obtain ⟨hd, hpr, hst, hin⟩ := hmem (sk, g) hpm
    refine ⟨g, hin, hd, hpr, hbuild.symm, ?_⟩
    intro g' hg' hd' hpr' hs''
    exact hmax (sk, g) hpm g' hg' hd' hpr' (hs''.trans hst)

/-- C10 witness: two stable releases and one prerelease; exactly one
`bluefin-os-stable` App is emitted. -/
theorem C10_one_app_per_stream_witness :
    ((["stable"] : List String).filterMap (fun sk =>
      (lookupRel (latestByStream
        [⟨"stable-20260101", "Stable A", "", "", 10, false, false⟩,
         ⟨"stable-20260203", "Stable B", "", "", 20, false, false⟩,
         ⟨"gts-20260203", "GTS pre", "", "", 30, false, true⟩]) sk).map
        (buildBluefinOSApp 0 (fun _ => "") (fun b => b)))).countP
      (fun a => a.id == "bluefin-os-" ++ "stable") = 1 := by
  have h := C10_one_app_per_stream
    [⟨"stable-20260101", "Stable A", "", "", 10, false, false⟩,
     ⟨"stable-20260203", "Stable B", "", "", 20, false, false⟩,
     ⟨"gts-20260203", "GTS pre", "", "", 30, false, true⟩]
    0 (fun _ => "") (fun b => b) ["stable"] _ (by decide) rfl
  exact h.1 "stable"
    ⟨⟨"stable-20260203", "Stable B", "", "", 20, false, false⟩,
      by decide, rfl, rfl, by decide⟩
